import Mathlib

/-!
# Verification of the gopherjs build orchestrator (src/gopherjs/tool.go)

This development shallowly embeds the build orchestration, caching and
bundle-assembly engine of the gopherjs tool: the memoizing package cache
(`getPackage`, tool.go lines 153-168), the recursive build with freshness
timestamps and the artifact cache-hit check (`buildPackage`, lines 170-243),
the backward sentinel scan of the artifact reader (lines 220-237), the
bundle assembler (`loadImports`, lines 245-291) and the artifact write phase
(lines 294-317).

Modelling conventions:
* bytes are `List Nat`, modification times are `Nat`;
* the filesystem, the package cache and the type registry are association
  lists threaded through an explicit state `St`;
* external collaborators that are not part of this repository's source
  (`translatePackage`, `gcexporter.Write`, `types.GcImportData`,
  `build.Context.Import`, the runtime prelude text) are modelled from the
  spec as opaque components of a `World`;
* the interpreter is fuel-indexed so that the recursive package-graph walk
  (which the source assumes terminates because import graphs are acyclic)
  is total;
* `St` additionally carries ghost logs (`buildLog`, `translateLog`,
  `emitLog`) that record invocations and emissions; the interpreter never
  reads them.
-/

abbrev Bytes := List Nat

/-- Bytes of an ASCII string (each character's code point). -/
def strBytes (s : String) : Bytes := s.data.map Char.toNat

/-- The sentinel line scanned for by the artifact reader: the two dollar
characters followed by a newline (tool.go line 223). -/
def sentinelBytes : Bytes := [36, 36, 10]

/-- The fields of `build.Package` that tool.go uses. -/
structure BuildPkg where
  name : String
  importPath : String
  imports : List String
  dir : String
  goFiles : List String
  pkgObj : String
deriving DecidableEq, Repr

/-- `GopherPackage` (tool.go lines 29-33): a build package together with the
derived freshness timestamp and the compiled payload. -/
structure GopherPackage where
  pkg : BuildPkg
  srcLastModified : Nat
  javaScriptCode : Bytes
deriving DecidableEq, Repr

/-- `build.Package.IsCommand`: the package is an executable entry point iff
its declared package name is `main`. -/
def isCommand (p : BuildPkg) : Bool := p.name == "main"

/-- Association-list lookup (first binding wins, newer bindings shadow). -/
def lookupA {α : Type} : List (String × α) → String → Option α
  | [], _ => none
  | (k, v) :: rest, key => if k = key then some v else lookupA rest key

/-- Modelled from the spec: the source language's exported-identifier
convention (`ast.IsExported` — the name begins with an upper-case letter). -/
def isExported (s : String) : Bool :=
  match s.data with
  | [] => false
  | c :: _ => c.isUpper

/-- The export-bridging list built at tool.go lines 273-278: every exported
top-level name of the package's type interface, bridged as `name: name`. -/
def exportsList (names : List String) : List String :=
  (names.filter (fun n => isExported n)).map (fun name => name ++ ": " ++ name)

/-- Opening of a module-registration block (tool.go line 271). -/
def regBlockOpen (path : String) : Bytes :=
  strBytes ("Go$packages[\"" ++ path ++ "\"] = (function() \x7b")

/-- Closing of a module-registration block (tool.go lines 279-280). -/
def regBlockClose (names : List String) : Bytes :=
  strBytes ("\treturn \x7b " ++ String.intercalate ", " (exportsList names) ++ " \x7d;\n")
    ++ strBytes "\x7d)();\n"

/-- The 3-byte window the artifact reader sees at offset `q`: the file bytes
at `q`, `q+1`, `q+2`, with the zero-initialized remainder of the read buffer
where the file ends early (tool.go lines 221-230; `make([]byte, 3)` zeroes
the buffer and a short read leaves the tail untouched). -/
def windowAt (file : Bytes) (q : Nat) : Bytes :=
  (file.drop q).take 3 ++ List.replicate (3 - (file.length - q)) 0

/-- The backward sentinel scan of tool.go lines 220-230: the window start
moves down one byte at a time from its starting position; a window equal to
the sentinel stops the scan with the file offset just past it; stepping below
the start of the file ends the scan with no match (the `Seek` failure at
line 224, returned as success). -/
def scanBack (file : Bytes) : Nat → Option Nat
  | 0 => if windowAt file 0 = sentinelBytes then some 3 else none
  | q + 1 => if windowAt file (q + 1) = sentinelBytes then some (q + 4) else scanBack file q

/-- The payload produced by the artifact read path (tool.go lines 220-235),
with the underlying file offset at end-of-file when the scan starts (the
buffered metadata decoder has consumed the stream): the first read at
end-of-file transfers nothing, the seek of -4 puts the first real window at
`length - 4`, and the scan then slides backward.  A file shorter than 4
bytes fails the very first seek; reaching the start of the file without a
match likewise yields an empty payload and success. -/
def readPayloadFromEnd (file : Bytes) : Bytes :=
  if file.length < 4 then []
  else
    match scanBack file (file.length - 4) with
    | some off => file.drop off
    | none => []

/-- The environment of one orchestrator run: everything the orchestrator
consults that is outside its own state.  `resolve` models
`build.Context.Import`, `translate` models `translatePackage` (the
Translation Collaborator), `encodeMeta` models the metadata blob that
`gcexporter.Write` emits for a registered type interface (Modelled from the
spec: the artifact is the metadata blob, then the sentinel line, then the
payload), `scopeNames` models `Scope().Names()` of a registered type
interface and `typeImports` its `Imports()` paths, `preludeSrc` the trimmed
runtime prelude text. -/
structure World where
  selfMTime : Nat
  preludeSrc : Bytes
  resolve : String → Option BuildPkg
  translate : String → Option Bytes
  encodeMeta : String → Bytes
  scopeNames : String → List String
  typeImports : String → List String

/-- The mutable state of one orchestrator run: the filesystem (path ↦
modification time and content), the process-wide package cache
`t.packages`, the shared type registry `t.typesConfig.Packages` (as the set
of registered identities), a clock for write timestamps, and three ghost
logs recording build entries, translation invocations and bundle emissions. -/
structure St where
  fs : List (String × Nat × Bytes)
  packages : List (String × GopherPackage)
  typesPackages : List String
  now : Nat
  buildLog : List String
  translateLog : List String
  emitLog : List String
deriving DecidableEq, Repr

/-- The failures the model distinguishes (tool.go propagates them as `error`
values). -/
inductive Err where
  | fuelExhausted
  | importFailed (importPath : String)
  | statFailed (path : String)
  | translateFailed (importPath : String)
deriving DecidableEq, Repr

/-- Placeholder for the `nil` package pointer `getPackage` returns alongside
an error. -/
def dummyPkg : GopherPackage :=
  { pkg := { name := "", importPath := "", imports := [], dir := "", goFiles := [], pkgObj := "" },
    srcLastModified := 0, javaScriptCode := [] }

/-- The source-file loop of tool.go lines 192-200: fold each source file's
modification time into the freshness accumulator, failing (with the
accumulator as mutated so far) if a source file cannot be stat'ed. -/
def goFilesScan (fs : List (String × Nat × Bytes)) (dir : String) :
    List String → Nat → Option Err × Nat
  | [], acc => (none, acc)
  | name :: rest, acc =>
    match lookupA fs (dir ++ "/" ++ name) with
    | none => (some (Err.statFailed (dir ++ "/" ++ name)), acc)
    | some (mtime, _) => goFilesScan fs dir rest (if acc < mtime then mtime else acc)

/-- The cache-hit condition of tool.go lines 202-203: the artifact file
exists, its modification time is strictly after the freshness timestamp, and
`writeToDisk` is set; on a hit, yields the artifact's content. -/
def cacheHitContent (fs : List (String × Nat × Bytes)) (path : String)
    (srcLastModified : Nat) (writeToDisk : Bool) : Option Bytes :=
  match lookupA fs path with
  | none => none
  | some (mtime, content) =>
    if srcLastModified < mtime ∧ writeToDisk then some content else none

/-- The tail of `buildPackage` (tool.go lines 292-317): store the payload on
the descriptor; when `writeToDisk` is set, write the artifact file in one
piece — shebang line first for a command, metadata blob and sentinel first
for a library, then the payload. -/
def finishBuild (w : World) (pkg : GopherPackage) (writeToDisk : Bool) (jsCode : Bytes)
    (st : St) : Option Err × GopherPackage × St :=
  let pkgF := { pkg with javaScriptCode := jsCode }
  if !writeToDisk then (none, pkgF, st)
  else
    let content :=
      (if isCommand pkgF.pkg then strBytes "#!/usr/bin/env node\n" else [])
        ++ (if isCommand pkgF.pkg then [] else w.encodeMeta pkgF.pkg.importPath ++ sentinelBytes)
        ++ jsCode
    (none, pkgF,
      { st with fs := (pkgF.pkg.pkgObj, st.now, content) :: st.fs, now := st.now + 1 })

mutual

/-- tool.go lines 153-168: return the memoized descriptor when the identity
is cached; otherwise resolve it, insert the descriptor into the cache
*before* building, and build it.  The `writeToDisk` parameter is accepted
but never consulted: line 164 always builds with `writeToDisk = true`.  The
shadowing re-insertion after the build mirrors the Go map's holding a
pointer to the descriptor that `buildPackage` mutates. -/
def getPackage : Nat → World → String → String → Bool → St → Option Err × GopherPackage × St
  | 0, _, _, _, _, st => (some Err.fuelExhausted, dummyPkg, st)
  | fuel + 1, w, importPath, _srcDir, _writeToDisk, st =>
    match lookupA st.packages importPath with
    | some pkg => (none, pkg, st)
    | none =>
      match w.resolve importPath with
      | none => (some (Err.importFailed importPath), dummyPkg, st)
      | some otherPkg =>
        let pkg : GopherPackage :=
          { pkg := otherPkg, srcLastModified := 0, javaScriptCode := [] }
        let st1 := { st with packages := (importPath, pkg) :: st.packages }
        match buildPackage fuel w pkg true st1 with
        | (some e, pkg1, st2) =>
          (some e, dummyPkg, { st2 with packages := (importPath, pkg1) :: st2.packages })
        | (none, pkg1, st2) =>
          (none, pkg1, { st2 with packages := (importPath, pkg1) :: st2.packages })

/-- The import loop of tool.go lines 182-190: resolve each import through
the package cache (building it with `writeToDisk = true` if absent) and fold
its freshness timestamp into this package's via strict-greater comparison. -/
def importLoop : Nat → World → List String → GopherPackage → St → Option Err × GopherPackage × St
  | 0, _, _, pkg, st => (some Err.fuelExhausted, pkg, st)
  | _fuel + 1, _, [], pkg, st => (none, pkg, st)
  | fuel + 1, w, importedPkgPath :: rest, pkg, st =>
    match getPackage fuel w importedPkgPath pkg.pkg.dir true st with
    | (some e, _, st1) => (some e, pkg, st1)
    | (none, compiledPkg, st1) =>
      let pkg1 :=
        if pkg.srcLastModified < compiledPkg.srcLastModified then
          { pkg with srcLastModified := compiledPkg.srcLastModified }
        else pkg
      importLoop fuel w rest pkg1 st1

/-- The bundle assembler `loadImportsOf` of tool.go lines 250-283: walk the
type-interface import graph depth-first; skip the three pseudo-identities
and anything already loaded; mark an identity loaded before recursing into
its own imports; after the recursion, fetch the identity's descriptor
through the package cache and append its module-registration block. -/
def loadImports : Nat → World → String → List String → List String → Bytes → St →
    Option Err × List String × Bytes × St
  | 0, _, _, _, loaded, jsCode, st => (some Err.fuelExhausted, loaded, jsCode, st)
  | _fuel + 1, _, _, [], loaded, jsCode, st => (none, loaded, jsCode, st)
  | fuel + 1, w, dir, imp :: rest, loaded, jsCode, st =>
    if imp = "unsafe" ∨ imp = "reflect" ∨ imp = "go/doc" then
      loadImports fuel w dir rest loaded jsCode st
    else if loaded.contains imp then
      loadImports fuel w dir rest loaded jsCode st
    else
      let loaded1 := imp :: loaded
      match loadImports fuel w dir (w.typeImports imp) loaded1 jsCode st with
      | (some e, loaded2, jsCode2, st2) => (some e, loaded2, jsCode2, st2)
      | (none, loaded2, jsCode2, st2) =>
        match getPackage fuel w imp dir false st2 with
        | (some e, _, st3) => (some e, loaded2, jsCode2, st3)
        | (none, gopherPkg, st3) =>
          let block :=
            regBlockOpen imp ++ gopherPkg.javaScriptCode ++ regBlockClose (w.scopeNames imp)
          let st4 := { st3 with emitLog := st3.emitLog ++ [imp] }
          loadImports fuel w dir rest loaded2 (jsCode2 ++ block) st4

/-- tool.go lines 170-317: the unsafe short-circuit; the freshness
computation seeded from the orchestrator's own binary; the artifact
cache-hit check with payload reload; otherwise translation, bundle assembly
for a command, and the write phase. -/
def buildPackage : Nat → World → GopherPackage → Bool → St → Option Err × GopherPackage × St
  | 0, _, pkg, _, st => (some Err.fuelExhausted, pkg, st)
  | fuel + 1, w, pkg0, writeToDisk, st0 =>
    let st := { st0 with buildLog := st0.buildLog ++ [pkg0.pkg.importPath] }
    if pkg0.pkg.importPath = "unsafe" then
      (none, pkg0, { st with typesPackages := "unsafe" :: st.typesPackages })
    else
      let pkg1 := { pkg0 with srcLastModified := w.selfMTime }
      match importLoop fuel w pkg1.pkg.imports pkg1 st with
      | (some e, pkg2, st2) => (some e, pkg2, st2)
      | (none, pkg2, st2) =>
        match goFilesScan st2.fs pkg2.pkg.dir pkg2.pkg.goFiles pkg2.srcLastModified with
        | (some e, acc) => (some e, { pkg2 with srcLastModified := acc }, st2)
        | (none, acc) =>
          let pkg3 := { pkg2 with srcLastModified := acc }
          match cacheHitContent st2.fs pkg3.pkg.pkgObj pkg3.srcLastModified writeToDisk with
          | some content =>
            if isCommand pkg3.pkg then (none, pkg3, st2)
            else
              let st3 := { st2 with typesPackages := pkg3.pkg.importPath :: st2.typesPackages }
              (none, { pkg3 with javaScriptCode := readPayloadFromEnd content }, st3)
          | none =>
            let st3 := { st2 with translateLog := st2.translateLog ++ [pkg3.pkg.importPath] }
            match w.translate pkg3.pkg.importPath with
            | none => (some (Err.translateFailed pkg3.pkg.importPath), pkg3, st3)
            | some packageCode =>
              let st4 := { st3 with typesPackages := pkg3.pkg.importPath :: st3.typesPackages }
              if isCommand pkg3.pkg then
                let js0 := w.preludeSrc ++ [10]
                match loadImports fuel w pkg3.pkg.dir (w.typeImports pkg3.pkg.importPath) [] js0 st4 with
                | (some e, _, _, st5) => (some e, pkg3, st5)
                | (none, _, jsCode, st5) =>
                  finishBuild w pkg3 writeToDisk (jsCode ++ packageCode ++ strBytes "main();") st5
              else
                finishBuild w pkg3 writeToDisk packageCode st4

end

/-- Every package-cache entry present before a state transition is still
present, with the same descriptor, afterwards. -/
def PkgPreserved (st st' : St) : Prop :=
  ∀ k v, lookupA st.packages k = some v → lookupA st'.packages k = some v

/-- `path` is the artifact path of some package the build context can
resolve. -/
def ResolvedObj (w : World) (path : String) : Prop :=
  ∃ q bp, w.resolve q = some bp ∧ bp.pkgObj = path

/-- Any filesystem entry that differs after the transition is the artifact
path of a resolvable package. -/
def FsDelta (w : World) (st st' : St) : Prop :=
  ∀ path, lookupA st'.fs path ≠ lookupA st.fs path → ResolvedObj w path

/-- Well-formedness of the build context: resolution registers a package
under the requested import path, and an importable package is never a
command (the source language forbids importing package main). -/
def LibResolve (w : World) : Prop :=
  ∀ q bp, w.resolve q = some bp → bp.importPath = q ∧ isCommand bp = false

/-- New type-registry entries are the unsafe pseudo-identity or identities
newly inserted into the package cache during the transition. -/
def TypesDelta (st st' : St) : Prop :=
  ∀ k, k ∈ st'.typesPackages → k ∈ st.typesPackages ∨ k = "unsafe" ∨
    (lookupA st.packages k = none ∧ lookupA st'.packages k ≠ none)

/-- Modelled from the Go standard library `path.Base` (not part of this
repository): empty path gives a dot, trailing slashes are stripped, the
element after the last slash remains, an all-slash path gives a slash. -/
def pathBase (path : String) : String :=
  if path = "" then "."
  else
    let cs := path.data.reverse.dropWhile (fun c => c = '/')
    if cs = [] then "/"
    else String.mk ((cs.takeWhile (fun c => c ≠ '/')).reverse)

/-- Go string slicing s[:n]: the slice panics (modelled as none) when n is
negative or exceeds the string's length. -/
def goSlicePrefix (s : String) (n : Int) : Option String :=
  if n < 0 ∨ (s.length : Int) < n then none
  else some (String.mk (s.data.take n.toNat))

/-- The artifact path derivation of tool.go lines 91-99 for the build and
run subcommands: basename[:len(basename)-3] + ".js", with the Go slice
panic surfaced as none. -/
def mainPkgObj (filename : String) : Option String :=
  (goSlicePrefix (pathBase filename) ((pathBase filename).length - 3)).map
    (fun s => s ++ ".js")

/-- Convenience constructor for test build packages. -/
def mkPkg (name importPath : String) (imports : List String) (dir : String)
    (goFiles : List String) (pkgObj : String) : BuildPkg :=
  { name := name, importPath := importPath, imports := imports, dir := dir,
    goFiles := goFiles, pkgObj := pkgObj }

/-- A run's initial state over the given filesystem and clock. -/
def stInit (fs : List (String × Nat × Bytes)) (now : Nat) : St :=
  { fs := fs, packages := [], typesPackages := [], now := now,
    buildLog := [], translateLog := [], emitLog := [] }

/-- Resolution map of the chain test world.  The executable has no
build-level imports of its own; the a imports b imports c chain lives in
the type-interface import graph below, which is the graph the bundle
assembler walks, so both libraries are resolved and built during bundle
assembly. -/
def chainResolve : String → Option BuildPkg
  | "b" => some (mkPkg "b" "b" [] "src/b" ["b.go"] "pkg/b.js")
  | "c" => some (mkPkg "c" "c" [] "src/c" ["c.go"] "pkg/c.js")
  | _ => none

/-- Chain test world: the type-interface graph is a imports b imports c;
b's type interface additionally lists the excluded reflection
pseudo-identity; b exports Foo and Bar and has the non-exported name baz. -/
def chainW : World :=
  { selfMTime := 10
    preludeSrc := strBytes "PRELUDE"
    resolve := chainResolve
    translate := fun p =>
      if p = "a" then some (strBytes "ACODE\n")
      else if p = "b" then some (strBytes "BCODE\n")
      else if p = "c" then some (strBytes "CCODE\n")
      else none
    encodeMeta := fun p => strBytes ("META-" ++ p ++ "\n")
    scopeNames := fun p =>
      if p = "b" then ["Foo", "Bar", "baz"] else if p = "c" then ["Qux"] else []
    typeImports := fun p =>
      if p = "a" then ["b"] else if p = "b" then ["c", "reflect"] else [] }

def chainFS : List (String × Nat × Bytes) :=
  [("src/a/a.go", 5, []), ("src/b/b.go", 5, []), ("src/c/c.go", 5, [])]

def aPkgChain : GopherPackage :=
  { pkg := mkPkg "main" "a" [] "src/a" ["a.go"] "a.js",
    srcLastModified := 0, javaScriptCode := [] }

/-- Building the chain executable from a cold cache. -/
def chainRun : Option Err × GopherPackage × St :=
  buildPackage 10 chainW aPkgChain true (stInit chainFS 100)

/-- Resolution map of the diamond test world.  Build-level imports are kept
flat so the fixture stays small; the diamond a imports b and c, b and c
both import d lives in the type-interface import graph below, which the
bundle assembler walks — d is therefore requested once under b and once
under c. -/
def diamondResolve : String → Option BuildPkg
  | "b" => some (mkPkg "b" "b" [] "src/b" ["b.go"] "pkg/b.js")
  | "c" => some (mkPkg "c" "c" [] "src/c" ["c.go"] "pkg/c.js")
  | "d" => some (mkPkg "d" "d" [] "src/d" ["d.go"] "pkg/d.js")
  | _ => none

/-- Diamond test world: the type-interface graph is the diamond a imports
b and c, and b and c both import d. -/
def diamondW : World :=
  { selfMTime := 10
    preludeSrc := strBytes "PRELUDE"
    resolve := diamondResolve
    translate := fun p =>
      if p = "a" then some (strBytes "ACODE\n")
      else if p = "b" then some (strBytes "BCODE\n")
      else if p = "c" then some (strBytes "CCODE\n")
      else if p = "d" then some (strBytes "DCODE\n")
      else none
    encodeMeta := fun p => strBytes ("META-" ++ p ++ "\n")
    scopeNames := fun _ => []
    typeImports := fun p =>
      if p = "a" then ["b", "c"] else if p = "b" then ["d"]
      else if p = "c" then ["d"] else [] }

def diamondFS : List (String × Nat × Bytes) :=
  [("src/a/a.go", 5, []), ("src/b/b.go", 5, []), ("src/c/c.go", 5, []),
   ("src/d/d.go", 5, [])]

def aPkgDiamond : GopherPackage :=
  { pkg := mkPkg "main" "a" ["b", "c"] "src/a" ["a.go"] "a.js",
    srcLastModified := 0, javaScriptCode := [] }

/-- Building the diamond executable from a cold cache. -/
def diamondRun : Option Err × GopherPackage × St :=
  buildPackage 10 diamondW aPkgDiamond true (stInit diamondFS 100)

/-- Resolution map of the bundle-inlining test world: the library c is
reachable only through the type-interface import graph, not through the
executable's build-level imports, so it is first resolved during bundle
assembly. -/
def c1Resolve : String → Option BuildPkg
  | "c" => some (mkPkg "c" "c" [] "src/c" ["c.go"] "pkg/c.js")
  | _ => none

/-- Bundle-inlining test world: the executable m has no build-level imports
but its type interface lists c, so c's descriptor is first requested by the
bundle assembler. -/
def c1W : World :=
  { selfMTime := 10
    preludeSrc := strBytes "PRELUDE"
    resolve := c1Resolve
    translate := fun p =>
      if p = "m" then some (strBytes "MCODE\n")
      else if p = "c" then some (strBytes "CCODE\n")
      else none
    encodeMeta := fun p => strBytes ("META-" ++ p ++ "\n")
    scopeNames := fun _ => []
    typeImports := fun p => if p = "m" then ["c"] else [] }

def c1FS : List (String × Nat × Bytes) :=
  [("src/m/m.go", 5, []), ("src/c/c.go", 5, [])]

def mPkgC1 : GopherPackage :=
  { pkg := mkPkg "main" "m" [] "src/m" ["m.go"] "m.js",
    srcLastModified := 0, javaScriptCode := [] }

/-- Building the executable whose only dependency is fetched during bundle
assembly. -/
def c1Run : Option Err × GopherPackage × St :=
  buildPackage 10 c1W mPkgC1 true (stInit c1FS 100)

/-- Resolution map of the invalidation test world: the library a imports the
library b. -/
def c2Resolve : String → Option BuildPkg
  | "b" => some (mkPkg "b" "b" [] "src/b" ["b.go"] "pkg/b.js")
  | _ => none

/-- Invalidation test world: library a imports library b; both have one
source file. -/
def c2W : World :=
  { selfMTime := 10
    preludeSrc := []
    resolve := c2Resolve
    translate := fun p =>
      if p = "a" then some (strBytes "ACODE\n")
      else if p = "b" then some (strBytes "BCODE\n")
      else none
    encodeMeta := fun p => strBytes ("META-" ++ p ++ "\n")
    scopeNames := fun _ => []
    typeImports := fun _ => [] }

def c2FS : List (String × Nat × Bytes) :=
  [("src/a/a.go", 5, []), ("src/b/b.go", 5, [])]

def aPkgC2 : GopherPackage :=
  { pkg := mkPkg "a" "a" ["b"] "src/a" ["a.go"] "pkg/a.js",
    srcLastModified := 0, javaScriptCode := [] }

/-- First run: builds and persists both libraries. -/
def c2Run1 : Option Err × GopherPackage × St :=
  buildPackage 10 c2W aPkgC2 true (stInit c2FS 100)

/-- Second run after bumping b's source modification time past both
persisted artifacts: a fresh cache over the filesystem left by the first
run. -/
def c2Run2bump : Option Err × GopherPackage × St :=
  buildPackage 10 c2W aPkgC2 true
    (stInit (("src/b/b.go", 300, []) :: c2Run1.2.2.fs) 400)

/-- Second run with nothing changed: both artifacts are up to date. -/
def c2Run2noBump : Option Err × GopherPackage × St :=
  buildPackage 10 c2W aPkgC2 true (stInit c2Run1.2.2.fs 400)

/-- Round-trip test world: a single library l whose compiled payload is the
given bytes. -/
def c4W (payload : Bytes) : World :=
  { selfMTime := 10
    preludeSrc := []
    resolve := fun _ => none
    translate := fun p => if p = "l" then some payload else none
    encodeMeta := fun p => strBytes ("META-" ++ p ++ "\n")
    scopeNames := fun _ => []
    typeImports := fun _ => [] }

def c4FS : List (String × Nat × Bytes) := [("src/l/l.go", 5, [])]

def lPkgC4 : GopherPackage :=
  { pkg := mkPkg "l" "l" [] "src/l" ["l.go"] "pkg/l.js",
    srcLastModified := 0, javaScriptCode := [] }

/-- First run: translates the library and persists its artifact. -/
def c4Run1 (payload : Bytes) : Option Err × GopherPackage × St :=
  buildPackage 4 (c4W payload) lPkgC4 true (stInit c4FS 100)

/-- Second run over the filesystem left by the first run, with a fresh
cache: the artifact is newer than every input, so the build takes the
cache-hit path. -/
def c4Run2 (payload : Bytes) : Option Err × GopherPackage × St :=
  buildPackage 4 (c4W payload) lPkgC4 true (stInit (c4Run1 payload).2.2.fs 200)

/-- A payload that happens to contain the sentinel line as payload bytes. -/
def c4Evil : Bytes := [36, 36, 10, 65]

/-- An ordinary payload free of sentinel bytes. -/
def c4Good : Bytes := strBytes "LCODE;\n"

/-- Failure test world: nothing resolves and nothing translates. -/
def c8W : World :=
  { selfMTime := 10
    preludeSrc := []
    resolve := fun _ => none
    translate := fun _ => none
    encodeMeta := fun _ => []
    scopeNames := fun _ => []
    typeImports := fun _ => [] }

def c8FS : List (String × Nat × Bytes) := [("src/z/z.go", 5, [])]

def zPkgC8 : GopherPackage :=
  { pkg := mkPkg "z" "z" [] "src/z" ["z.go"] "pkg/z.js",
    srcLastModified := 0, javaScriptCode := [] }

/-- A build that fails at the translation step. -/
def c8Run : Option Err × GopherPackage × St :=
  buildPackage 3 c8W zPkgC8 true (stInit c8FS 100)

/-- Resolution map of the failure-memoization test world. -/
def c9Resolve : String → Option BuildPkg
  | "z" => some (mkPkg "z" "z" [] "src/z" ["z.go"] "pkg/z.js")
  | _ => none

/-- Failure-memoization test world: z resolves but its translation fails. -/
def c9W : World :=
  { selfMTime := 10
    preludeSrc := []
    resolve := c9Resolve
    translate := fun _ => none
    encodeMeta := fun _ => []
    scopeNames := fun _ => []
    typeImports := fun _ => [] }

def c9FS : List (String × Nat × Bytes) := [("src/z/z.go", 5, [])]

/-- Requesting z through the package cache: the build fails. -/
def c9Run : Option Err × GopherPackage × St :=
  getPackage 3 c9W "z" "" true (stInit c9FS 100)

/-- 1 when the identity enters the package cache during the transition,
0 otherwise. -/
def bump (st st' : St) (k : String) : Nat :=
  if lookupA st.packages k = none ∧ lookupA st'.packages k ≠ none then 1 else 0

/-- The orchestrator state at the moment a's bundle assembly starts in the
chain run: a's build has been logged and its translation registered. -/
@[reducible] def s4Chain : St :=
  { fs := chainFS, packages := [], typesPackages := ["a"], now := 100,
    buildLog := ["a"], translateLog := ["a"], emitLog := [] }

@[reducible] def cD : GopherPackage :=
  ⟨⟨"c", "c", [], "src/c", ["c.go"], "pkg/c.js"⟩, 10, [67, 67, 79, 68, 69, 10]⟩

@[reducible] def sAfterC : St :=
  { fs := [("pkg/c.js", 100, [77, 69, 84, 65, 45, 99, 10, 36, 36, 10, 67, 67, 79, 68, 69, 10]),
           ("src/a/a.go", 5, []), ("src/b/b.go", 5, []), ("src/c/c.go", 5, [])],
    packages := [("c", cD), ("c", ⟨cD.pkg, 0, []⟩)],
    typesPackages := ["c", "a"], now := 101,
    buildLog := ["a", "c"], translateLog := ["a", "c"], emitLog := [] }

@[reducible] def bD : GopherPackage :=
  ⟨⟨"b", "b", [], "src/b", ["b.go"], "pkg/b.js"⟩, 10, [66, 67, 79, 68, 69, 10]⟩

@[reducible] def sAfterB : St :=
  { fs := [("pkg/b.js", 101, [77, 69, 84, 65, 45, 98, 10, 36, 36, 10, 66, 67, 79, 68, 69, 10]),
           ("pkg/c.js", 100, [77, 69, 84, 65, 45, 99, 10, 36, 36, 10, 67, 67, 79, 68, 69, 10]),
           ("src/a/a.go", 5, []), ("src/b/b.go", 5, []), ("src/c/c.go", 5, [])],
    packages := [("b", bD), ("b", ⟨bD.pkg, 0, []⟩), ("c", cD), ("c", ⟨cD.pkg, 0, []⟩)],
    typesPackages := ["b", "c", "a"], now := 102,
    buildLog := ["a", "c", "b"], translateLog := ["a", "c", "b"], emitLog := ["c"] }

def jsAfterBundle : Bytes :=
  strBytes ("PRELUDE\nGo$packages[\"c\"] = (function() \x7bCCODE\n\treturn \x7b Qux: Qux \x7d;\n\x7d)();\n"
    ++ "Go$packages[\"b\"] = (function() \x7bBCODE\n\treturn \x7b Foo: Foo, Bar: Bar \x7d;\n\x7d)();\n")

def aPkg3 : GopherPackage :=
  { pkg := aPkgChain.pkg, srcLastModified := 10, javaScriptCode := [] }

def chainFinalJs : Bytes := jsAfterBundle ++ strBytes "ACODE\n" ++ strBytes "main();"

def chainFinalSt : St :=
  { fs := ("a.js", 102, strBytes "#!/usr/bin/env node\n" ++ chainFinalJs) :: sAfterB.fs,
    packages := sAfterB.packages, typesPackages := sAfterB.typesPackages, now := 103,
    buildLog := sAfterB.buildLog, translateLog := sAfterB.translateLog,
    emitLog := ["c", "b"] }

def dS0 : St :=
  { fs := diamondFS, packages := [], typesPackages := [], now := 100,
    buildLog := ["a"], translateLog := [], emitLog := [] }

def bD2 : GopherPackage :=
  { pkg := mkPkg "b" "b" [] "src/b" ["b.go"] "pkg/b.js",
    srcLastModified := 10, javaScriptCode := strBytes "BCODE\n" }

def dS1 : St :=
  { fs := ("pkg/b.js", 100, strBytes "META-b\n" ++ sentinelBytes ++ strBytes "BCODE\n") :: diamondFS,
    packages := [("b", bD2), ("b", { bD2 with srcLastModified := 0, javaScriptCode := [] })],
    typesPackages := ["b"], now := 101,
    buildLog := ["a", "b"], translateLog := ["b"], emitLog := [] }

def cD2 : GopherPackage :=
  { pkg := mkPkg "c" "c" [] "src/c" ["c.go"] "pkg/c.js",
    srcLastModified := 10, javaScriptCode := strBytes "CCODE\n" }

def dS2 : St :=
  { fs := ("pkg/c.js", 101, strBytes "META-c\n" ++ sentinelBytes ++ strBytes "CCODE\n") :: dS1.fs,
    packages := ("c", cD2) :: ("c", { cD2 with srcLastModified := 0, javaScriptCode := [] }) :: dS1.packages,
    typesPackages := ["c", "b"], now := 102,
    buildLog := ["a", "b", "c"], translateLog := ["b", "c"], emitLog := [] }

def dS4 : St :=
  { dS2 with typesPackages := "a" :: dS2.typesPackages,
             translateLog := dS2.translateLog ++ ["a"] }

def dBundleJs : Bytes := strBytes
  ("PRELUDE\nGo$packages[\"d\"] = (function() \x7bDCODE\n\treturn \x7b  \x7d;\n\x7d)();\n"
    ++ "Go$packages[\"b\"] = (function() \x7bBCODE\n\treturn \x7b  \x7d;\n\x7d)();\n"
    ++ "Go$packages[\"c\"] = (function() \x7bCCODE\n\treturn \x7b  \x7d;\n\x7d)();\n")

def dD2 : GopherPackage :=
  { pkg := mkPkg "d" "d" [] "src/d" ["d.go"] "pkg/d.js",
    srcLastModified := 10, javaScriptCode := strBytes "DCODE\n" }

def dS9 : St :=
  { fs := ("pkg/d.js", 102, strBytes "META-d\n" ++ sentinelBytes ++ strBytes "DCODE\n") :: dS2.fs,
    packages := ("d", dD2) :: ("d", { dD2 with srcLastModified := 0, javaScriptCode := [] }) :: dS2.packages,
    typesPackages := ["d", "a", "c", "b"], now := 103,
    buildLog := ["a", "b", "c", "d"], translateLog := ["b", "c", "a", "d"],
    emitLog := ["d", "b", "c"] }

def dFinalJs : Bytes := dBundleJs ++ strBytes "ACODE\n" ++ strBytes "main();"

def dFinalSt : St :=
  { dS9 with fs := ("a.js", 103, strBytes "#!/usr/bin/env node\n" ++ dFinalJs) :: dS9.fs,
             now := 104 }

theorem scanBack_stops (file : Bytes) :
    ∀ S off, scanBack file S = some off → 3 ≤ off ∧ windowAt file (off - 3) = sentinelBytes := by
  intro S
  induction S with
  | zero =>
    intro off h
    rw [scanBack] at h
    by_cases hw : windowAt file 0 = sentinelBytes
    · rw [if_pos hw] at h
      cases h
      exact ⟨le_refl _, hw⟩
    · rw [if_neg hw] at h
      cases h
  | succ S ih =>
    intro off h
    rw [scanBack] at h
    by_cases hw : windowAt file (S + 1) = sentinelBytes
    · rw [if_pos hw] at h
      cases h
      exact ⟨by omega, by simpa using hw⟩
    · rw [if_neg hw] at h
      exact ih off h

theorem scanBack_none (file : Bytes) :
    ∀ S, (∀ q, q ≤ S → windowAt file q ≠ sentinelBytes) → scanBack file S = none := by
  intro S
  induction S with
  | zero =>
    intro h
    rw [scanBack, if_neg (h 0 (le_refl _))]
  | succ S ih =>
    intro h
    rw [scanBack, if_neg (h (S + 1) (le_refl _))]
    exact ih (fun q hq => h q (Nat.le_succ_of_le hq))

theorem scanBack_found (file : Bytes) (q0 : Nat) (hw : windowAt file q0 = sentinelBytes) :
    ∀ S, q0 ≤ S → (∀ q, q0 < q → q ≤ S → windowAt file q ≠ sentinelBytes) →
    scanBack file S = some (q0 + 3) := by
  intro S
  induction S with
  | zero =>
    intro hle _
    have hq0 : q0 = 0 := Nat.le_zero.mp hle
    subst hq0
    rw [scanBack, if_pos hw]
  | succ S ih =>
    intro hle hnone
    by_cases hq : q0 = S + 1
    · subst hq
      rw [scanBack, if_pos hw]
    · have hle' : q0 ≤ S := Nat.lt_succ_iff.mp (Nat.lt_of_le_of_ne hle hq)
      have hnot : windowAt file (S + 1) ≠ sentinelBytes :=
        hnone (S + 1) (Nat.lt_succ_of_le hle') (le_refl _)
      rw [scanBack, if_neg hnot]
      exact ih hle' (fun q h1 h2 => hnone q h1 (Nat.le_succ_of_le h2))

theorem windowAt_concat (meta payload : Bytes) :
    windowAt (meta ++ (sentinelBytes ++ payload)) meta.length = sentinelBytes := by
  unfold windowAt
  rw [List.drop_left]
  have h1 : (sentinelBytes ++ payload).take 3 = sentinelBytes := by
    have : sentinelBytes.length = 3 := rfl
    rw [← this, List.take_left]
  rw [h1]
  have h2 : 3 - ((meta ++ (sentinelBytes ++ payload)).length - meta.length) = 0 := by
    simp [sentinelBytes]
  rw [h2]
  simp

theorem readPayload_roundTrip (meta payload : Bytes) (hp : payload ≠ [])
    (hno : ∀ q, meta.length < q → q + 4 ≤ meta.length + 3 + payload.length →
      windowAt (meta ++ (sentinelBytes ++ payload)) q ≠ sentinelBytes) :
    readPayloadFromEnd (meta ++ (sentinelBytes ++ payload)) = payload := by
  have hplen : 0 < payload.length := List.length_pos.mpr hp
  have hlen : (meta ++ (sentinelBytes ++ payload)).length = meta.length + 3 + payload.length := by
    simp [sentinelBytes]; omega
  unfold readPayloadFromEnd
  rw [if_neg (by omega)]
  rw [scanBack_found _ meta.length (windowAt_concat meta payload) _ (by omega)
    (fun q h1 h2 => hno q h1 (by omega))]
  have h3 : (meta ++ sentinelBytes).length = meta.length + 3 := by simp [sentinelBytes]
  show List.drop (meta.length + 3) (meta ++ (sentinelBytes ++ payload)) = payload
  rw [← h3, ← List.append_assoc]
  exact List.drop_left _ _

theorem lookupA_cons {α : Type} (k : String) (v : α) (l : List (String × α)) (key : String) :
    lookupA ((k, v) :: l) key = if k = key then some v else lookupA l key := rfl

theorem pkgPreserved_rfl (st : St) : PkgPreserved st st := fun _ _ h => h

theorem pkgPreserved_trans {a b c : St} (h1 : PkgPreserved a b) (h2 : PkgPreserved b c) :
    PkgPreserved a c := fun k v h => h2 k v (h1 k v h)

theorem pkgPreserved_congr {a b c : St} (h : PkgPreserved a b) (hc : c.packages = b.packages) :
    PkgPreserved a c := fun k v hk => by
  rw [show lookupA c.packages k = lookupA b.packages k from by rw [hc]]
  exact h k v hk

theorem pkgPreserved_insert (st : St) (p : String) (pkg0 : GopherPackage)
    (hmiss : lookupA st.packages p = none) :
    PkgPreserved st { st with packages := (p, pkg0) :: st.packages } := by
  intro k v hk
  rw [lookupA_cons]
  split
  · rename_i hpk
    subst hpk
    rw [hk] at hmiss
    cases hmiss
  · exact hk

theorem pkgPreserved_shadow {st st2 : St} (p : String) (pkg1 : GopherPackage)
    (hmiss : lookupA st.packages p = none) (h : PkgPreserved st st2)
    (c : St) (hc : c.packages = (p, pkg1) :: st2.packages) :
    PkgPreserved st c := by
  intro k v hk
  rw [show lookupA c.packages k = lookupA ((p, pkg1) :: st2.packages) k from by rw [hc]]
  rw [lookupA_cons]
  split
  · rename_i hpk
    subst hpk
    rw [hk] at hmiss
    cases hmiss
  · exact h k v hk

/-- The package cache only gains entries, and never changes an existing
entry, across every operation of the orchestrator. -/
theorem masterPkg (w : World) : ∀ fuel : Nat,
    (∀ p d b st r, getPackage fuel w p d b st = r → PkgPreserved st r.2.2) ∧
    (∀ imps pkg st r, importLoop fuel w imps pkg st = r → PkgPreserved st r.2.2) ∧
    (∀ dir work loaded js st r, loadImports fuel w dir work loaded js st = r →
      PkgPreserved st r.2.2.2) ∧
    (∀ pkg wtd st r, buildPackage fuel w pkg wtd st = r → PkgPreserved st r.2.2) := by
  intro fuel
  induction fuel with
  | zero =>
    refine ⟨fun p d b st r h => ?_, fun imps pkg st r h => ?_,
      fun dir work loaded js st r h => ?_, fun pkg wtd st r h => ?_⟩ <;>
      (subst h; exact pkgPreserved_rfl st)
  | succ fuel ih =>
    obtain ⟨ihG, ihI, ihL, ihB⟩ := ih
    refine ⟨fun p d b st r h => ?_, fun imps pkg st r h => ?_,
      fun dir work loaded js st r h => ?_, fun pkg wtd st r h => ?_⟩
    · -- getPackage
      simp only [getPackage] at h
      split at h
      · subst h
        exact pkgPreserved_rfl st
      · rename_i hmiss
        split at h
        · subst h
          exact pkgPreserved_rfl st
        · rename_i otherPkg hres
          split at h <;> rename_i hB <;> subst h
          · have h2 := ihB _ _ _ _ hB
            exact pkgPreserved_shadow _ _ hmiss
              (pkgPreserved_trans (pkgPreserved_insert st _ _ hmiss) h2) _ rfl
          · have h2 := ihB _ _ _ _ hB
            exact pkgPreserved_shadow _ _ hmiss
              (pkgPreserved_trans (pkgPreserved_insert st _ _ hmiss) h2) _ rfl
    · -- importLoop
      cases imps with
      | nil =>
        cases fuel <;> (simp only [importLoop] at h; subst h; exact pkgPreserved_rfl st)
      | cons i rest =>
        simp only [importLoop] at h
        split at h <;> rename_i hG
        · subst h
          have h1 := ihG _ _ _ _ _ hG
          exact pkgPreserved_congr h1 rfl
        · have h1 := ihG _ _ _ _ _ hG
          have h2 := ihI _ _ _ _ h
          exact pkgPreserved_trans (pkgPreserved_congr h1 rfl) h2
    · -- loadImports
      cases work with
      | nil =>
        cases fuel <;> (simp only [loadImports] at h; subst h; exact pkgPreserved_rfl st)
      | cons imp rest =>
        simp only [loadImports] at h
        split at h
        · exact ihL _ _ _ _ _ _ h
        · split at h
          · exact ihL _ _ _ _ _ _ h
          · split at h <;> rename_i hL
            · subst h
              have h1 := ihL _ _ _ _ _ _ hL
              exact pkgPreserved_congr h1 rfl
            · split at h <;> rename_i hG
              · subst h
                have h1 := ihL _ _ _ _ _ _ hL
                have h2 := ihG _ _ _ _ _ hG
                exact pkgPreserved_trans (pkgPreserved_congr h1 rfl) (pkgPreserved_congr h2 rfl)
              · have h1 := ihL _ _ _ _ _ _ hL
                have h2 := ihG _ _ _ _ _ hG
                have h3 := ihL _ _ _ _ _ _ h
                exact pkgPreserved_trans (pkgPreserved_congr h1 rfl)
                  (pkgPreserved_trans (pkgPreserved_congr h2 rfl)
                    (pkgPreserved_trans (pkgPreserved_congr (pkgPreserved_rfl _) rfl) h3))
    · -- buildPackage
      simp only [buildPackage] at h
      split at h
      · subst h
        exact pkgPreserved_rfl st
      · split at h <;> rename_i hI
        · subst h
          have h1 := ihI _ _ _ _ hI
          exact pkgPreserved_congr h1 rfl
        · split at h <;> rename_i hGF
          · subst h
            have h1 := ihI _ _ _ _ hI
            exact pkgPreserved_congr h1 rfl
          · split at h
            · split at h <;> subst h <;>
                (have h1 := ihI _ _ _ _ hI; exact pkgPreserved_congr h1 rfl)
            · split at h <;> rename_i hT
              · subst h
                have h1 := ihI _ _ _ _ hI
                exact pkgPreserved_congr h1 rfl
              · split at h
                · split at h <;> rename_i hL
                  · subst h
                    have h1 := ihI _ _ _ _ hI
                    have h2 := ihL _ _ _ _ _ _ hL
                    exact pkgPreserved_trans (pkgPreserved_congr h1 rfl) (pkgPreserved_congr h2 rfl)
                  · simp only [finishBuild] at h
                    split at h <;> subst h <;>
                      (have h1 := ihI _ _ _ _ hI;
                       have h2 := ihL _ _ _ _ _ _ hL;
                       exact pkgPreserved_trans (pkgPreserved_congr h1 rfl) (pkgPreserved_congr h2 rfl))
                · simp only [finishBuild] at h
                  split at h <;> subst h <;>
                    (have h1 := ihI _ _ _ _ hI; exact pkgPreserved_congr h1 rfl)

/-- The import loop only ever raises the descriptor's freshness timestamp:
the build package and payload components pass through untouched. -/
theorem importLoop_shape (w : World) : ∀ fuel imps pkg st r, importLoop fuel w imps pkg st = r →
    r.2.1.pkg = pkg.pkg ∧ r.2.1.javaScriptCode = pkg.javaScriptCode ∧
      pkg.srcLastModified ≤ r.2.1.srcLastModified := by
  intro fuel
  induction fuel with
  | zero =>
    intro imps pkg st r h
    subst h
    exact ⟨rfl, rfl, le_refl _⟩
  | succ fuel ih =>
    intro imps pkg st r h
    cases imps with
    | nil =>
      subst h
      exact ⟨rfl, rfl, le_refl _⟩
    | cons i rest =>
      simp only [importLoop] at h
      split at h
      · subst h
        exact ⟨rfl, rfl, le_refl _⟩
      · rename_i compiledPkg st1 hG
        obtain ⟨ha, hb, hc⟩ := ih rest _ st1 r h
        refine ⟨?_, ?_, ?_⟩
        · rw [ha]
          split <;> rfl
        · rw [hb]
          split <;> rfl
        · refine le_trans ?_ hc
          split
          · rename_i hlt
            exact le_of_lt hlt
          · exact le_refl _

theorem lookupA_cons_ne {α : Type} {k key : String} (v : α) (l : List (String × α))
    (h : k ≠ key) : lookupA ((k, v) :: l) key = lookupA l key := by
  rw [lookupA_cons, if_neg h]

theorem fsDelta_rfl (w : World) (st : St) : FsDelta w st st := fun _ h => absurd rfl h

theorem fsDelta_trans {w : World} {a b c : St} (h1 : FsDelta w a b) (h2 : FsDelta w b c) :
    FsDelta w a c := by
  intro path hne
  by_cases h : lookupA b.fs path = lookupA a.fs path
  · exact h2 path (fun hcb => hne (hcb.trans h))
  · exact h1 path h

/-- Every operation of the orchestrator modifies the filesystem only at
artifact paths of resolvable packages, except that `buildPackage` also
writes its own argument's artifact path — and that only on success. -/
theorem masterFs (w : World) : ∀ fuel : Nat,
    (∀ p d b st r, getPackage fuel w p d b st = r → FsDelta w st r.2.2) ∧
    (∀ imps pkg st r, importLoop fuel w imps pkg st = r → FsDelta w st r.2.2) ∧
    (∀ dir work loaded js st r, loadImports fuel w dir work loaded js st = r →
      FsDelta w st r.2.2.2) ∧
    (∀ pkg wtd st r, buildPackage fuel w pkg wtd st = r →
      ∀ path, lookupA r.2.2.fs path ≠ lookupA st.fs path →
        ResolvedObj w path ∨ (path = pkg.pkg.pkgObj ∧ r.1 = none)) := by
  intro fuel
  induction fuel with
  | zero =>
    refine ⟨fun p d b st r h => ?_, fun imps pkg st r h => ?_,
      fun dir work loaded js st r h => ?_, fun pkg wtd st r h => ?_⟩ <;>
      (subst h; first
        | exact fsDelta_rfl w st
        | exact fun path hne => absurd rfl hne)
  | succ fuel ih =>
    obtain ⟨ihG, ihI, ihL, ihB⟩ := ih
    refine ⟨fun p d b st r h => ?_, fun imps pkg st r h => ?_,
      fun dir work loaded js st r h => ?_, fun pkg wtd st r h => ?_⟩
    · -- getPackage
      simp only [getPackage] at h
      split at h
      · subst h
        exact fsDelta_rfl w st
      · rename_i hmiss
        split at h
        · subst h
          exact fsDelta_rfl w st
        · rename_i otherPkg hres
          split at h
          · rename_i e1 pkg1 st2 hB
            subst h
            intro path hne
            have hd := ihB _ _ _ _ hB
            rcases hd path hne with hres2 | ⟨hpath, _⟩
            · exact hres2
            · exact ⟨p, otherPkg, hres, hpath.symm⟩
          · rename_i pkg1 st2 hB
            subst h
            intro path hne
            have hd := ihB _ _ _ _ hB
            rcases hd path hne with hres2 | ⟨hpath, _⟩
            · exact hres2
            · exact ⟨p, otherPkg, hres, hpath.symm⟩
    · -- importLoop
      cases imps with
      | nil =>
        cases fuel <;> (simp only [importLoop] at h; subst h; exact fsDelta_rfl w st)
      | cons i rest =>
        simp only [importLoop] at h
        split at h
        · rename_i e1 q1 st1 hG
          subst h
          have hd := ihG _ _ _ _ _ hG
          exact hd
        · rename_i q1 st1 hG
          have hd1 := ihG _ _ _ _ _ hG
          have hd2 := ihI _ _ _ _ h
          exact fsDelta_trans hd1 hd2
    · -- loadImports
      cases work with
      | nil =>
        cases fuel <;> (simp only [loadImports] at h; subst h; exact fsDelta_rfl w st)
      | cons imp rest =>
        simp only [loadImports] at h
        split at h
        · have hd := ihL _ _ _ _ _ _ h
          exact hd
        · split at h
          · have hd := ihL _ _ _ _ _ _ h
            exact hd
          · split at h
            · rename_i e1 l2 j2 st2 hL
              subst h
              have hd := ihL _ _ _ _ _ _ hL
              exact hd
            · rename_i l2 j2 st2 hL
              split at h
              · rename_i e2 q2 st3 hG
                subst h
                have hd1 := ihL _ _ _ _ _ _ hL
                have hd2 := ihG _ _ _ _ _ hG
                exact fsDelta_trans hd1 hd2
              · rename_i q2 st3 hG
                have hd1 := ihL _ _ _ _ _ _ hL
                have hd2 := ihG _ _ _ _ _ hG
                have hd3 := ihL _ _ _ _ _ _ h
                exact fsDelta_trans hd1 (fsDelta_trans hd2 hd3)
    · -- buildPackage
      simp only [buildPackage] at h
      split at h
      · subst h
        exact fun path hne => absurd rfl hne
      · rename_i hnu
        split at h
        · rename_i e1 pkgIL stIL hI
          subst h
          have hd := ihI _ _ _ _ hI
          exact fun path hne => Or.inl (hd path hne)
        · rename_i pkgIL stIL hI
          have hdI := ihI _ _ _ _ hI
          split at h
          · rename_i e2 accGF hGF
            subst h
            exact fun path hne => Or.inl (hdI path hne)
          · rename_i accGF hGF
            split at h
            · rename_i content hHit
              split at h
              · subst h
                exact fun path hne => Or.inl (hdI path hne)
              · subst h
                exact fun path hne => Or.inl (hdI path hne)
            · rename_i hHit
              split at h
              · rename_i hT
                subst h
                exact fun path hne => Or.inl (hdI path hne)
              · rename_i packageCode hT
                split at h
                · rename_i hCmd
                  split at h
                  · rename_i e3 l2 js2 st5 hL
                    subst h
                    have hdL := ihL _ _ _ _ _ _ hL
                    exact fun path hne => Or.inl (fsDelta_trans hdI hdL path hne)
                  · rename_i l2 js2 st5 hL
                    have hdL := ihL _ _ _ _ _ _ hL
                    simp only [finishBuild] at h
                    split at h
                    · subst h
                      exact fun path hne => Or.inl (fsDelta_trans hdI hdL path hne)
                    · rename_i hwtd
                      subst h
                      intro path hne
                      dsimp only at hne
                      by_cases hp : pkgIL.pkg.pkgObj = path
                      · refine Or.inr ⟨?_, rfl⟩
                        have hpk : pkgIL.pkg = pkg.pkg := (importLoop_shape w fuel _ _ _ _ hI).1
                        rw [← hp, hpk]
                      · rw [lookupA_cons_ne _ _ hp] at hne
                        exact Or.inl (fsDelta_trans hdI hdL path hne)
                · rename_i hCmd
                  simp only [finishBuild] at h
                  split at h
                  · subst h
                    exact fun path hne => Or.inl (hdI path hne)
                  · rename_i hwtd
                    subst h
                    intro path hne
                    dsimp only at hne
                    by_cases hp : pkgIL.pkg.pkgObj = path
                    · refine Or.inr ⟨?_, rfl⟩
                      have hpk : pkgIL.pkg = pkg.pkg := (importLoop_shape w fuel _ _ _ _ hI).1
                      rw [← hp, hpk]
                    · rw [lookupA_cons_ne _ _ hp] at hne
                      exact Or.inl (hdI path hne)

theorem typesDelta_refl {st st' : St} (ht : st'.typesPackages = st.typesPackages) :
    TypesDelta st st' := fun _k hk => Or.inl (ht ▸ hk)

theorem lookupA_none_of_preserved {a b : St} (hp : PkgPreserved a b) {k : String}
    (h : lookupA b.packages k = none) : lookupA a.packages k = none := by
  cases hv : lookupA a.packages k with
  | none => rfl
  | some v =>
    rw [hp k v hv] at h
    cases h

theorem lookupA_ne_none_of_preserved {a b : St} (hp : PkgPreserved a b) {k : String}
    (h : lookupA a.packages k ≠ none) : lookupA b.packages k ≠ none := by
  cases hv : lookupA a.packages k with
  | none => exact absurd hv h
  | some v =>
    rw [hp k v hv]
    exact fun hc => Option.noConfusion hc

theorem typesDelta_trans {a b c : St} (h1 : TypesDelta a b) (h2 : TypesDelta b c)
    (hp1 : PkgPreserved a b) (hp2 : PkgPreserved b c) : TypesDelta a c := by
  intro k hk
  rcases h2 k hk with hb | hu | ⟨hn1, hn2⟩
  · rcases h1 k hb with ha | hu | ⟨hm1, hm2⟩
    · exact Or.inl ha
    · exact Or.inr (Or.inl hu)
    · exact Or.inr (Or.inr ⟨hm1, lookupA_ne_none_of_preserved hp2 hm2⟩)
  · exact Or.inr (Or.inl hu)
  · exact Or.inr (Or.inr ⟨lookupA_none_of_preserved hp1 hn1, hn2⟩)

/-- How the shared type registry grows across the orchestrator's
operations, for a well-formed build context: nested operations register
only the unsafe pseudo-identity or identities they newly insert into the
package cache; `buildPackage` additionally registers its own argument's
identity, but — for a library — only when it succeeds.  Moreover no
operation other than a command's own bundle assembly appends to the ghost
emission log. -/
theorem masterTypes (w : World) (hwf : LibResolve w) : ∀ fuel : Nat,
    (∀ p d b st r, getPackage fuel w p d b st = r →
      TypesDelta st r.2.2 ∧ r.2.2.emitLog = st.emitLog) ∧
    (∀ imps pkg st r, importLoop fuel w imps pkg st = r →
      TypesDelta st r.2.2 ∧ r.2.2.emitLog = st.emitLog) ∧
    (∀ dir work loaded js st r, loadImports fuel w dir work loaded js st = r →
      TypesDelta st r.2.2.2) ∧
    (∀ pkg wtd st r, buildPackage fuel w pkg wtd st = r →
      (∀ k, k ∈ r.2.2.typesPackages → k ∈ st.typesPackages ∨ k = "unsafe" ∨
        (lookupA st.packages k = none ∧ lookupA r.2.2.packages k ≠ none) ∨
        (k = pkg.pkg.importPath ∧ (r.1 = none ∨ isCommand pkg.pkg = true))) ∧
      (isCommand pkg.pkg = false → r.2.2.emitLog = st.emitLog)) := by
  intro fuel
  induction fuel with
  | zero =>
    refine ⟨fun p d b st r h => ?_, fun imps pkg st r h => ?_,
      fun dir work loaded js st r h => ?_, fun pkg wtd st r h => ?_⟩ <;> subst h
    · exact ⟨typesDelta_refl rfl, rfl⟩
    · exact ⟨typesDelta_refl rfl, rfl⟩
    · exact typesDelta_refl rfl
    · exact ⟨fun _k hk => Or.inl hk, fun _ => rfl⟩
  | succ fuel ih =>
    obtain ⟨ihG, ihI, ihL, ihB⟩ := ih
    obtain ⟨mpG, mpI, mpL, mpB⟩ := masterPkg w fuel
    refine ⟨fun p d b st r h => ?_, fun imps pkg st r h => ?_,
      fun dir work loaded js st r h => ?_, fun pkg wtd st r h => ?_⟩
    · -- getPackage
      simp only [getPackage] at h
      split at h
      · subst h
        exact ⟨typesDelta_refl rfl, rfl⟩
      · rename_i hmiss
        split at h
        · subst h
          exact ⟨typesDelta_refl rfl, rfl⟩
        · rename_i otherPkg hres
          obtain ⟨hbp, hbc⟩ := hwf p otherPkg hres
          split at h
          · rename_i e1 pkg1 st2 hB
            subst h
            obtain ⟨hTB, hEB⟩ := ihB _ _ _ _ hB
            refine ⟨?_, hEB hbc⟩
            intro k hk
            rcases hTB k hk with ha | hu | ⟨hn1, hn2⟩ | ⟨hkeq, _⟩
            · exact Or.inl ha
            · exact Or.inr (Or.inl hu)
            · rw [lookupA_cons] at hn1
              split at hn1
              · cases hn1
              · rename_i hpk
                refine Or.inr (Or.inr ⟨hn1, ?_⟩)
                rw [lookupA_cons, if_neg hpk]
                exact hn2
            · rw [hbp] at hkeq
              subst hkeq
              refine Or.inr (Or.inr ⟨hmiss, ?_⟩)
              rw [lookupA_cons, if_pos rfl]
              exact fun hc => Option.noConfusion hc
          · rename_i pkg1 st2 hB
            subst h
            obtain ⟨hTB, hEB⟩ := ihB _ _ _ _ hB
            refine ⟨?_, hEB hbc⟩
            intro k hk
            rcases hTB k hk with ha | hu | ⟨hn1, hn2⟩ | ⟨hkeq, _⟩
            · exact Or.inl ha
            · exact Or.inr (Or.inl hu)
            · rw [lookupA_cons] at hn1
              split at hn1
              · cases hn1
              · rename_i hpk
                refine Or.inr (Or.inr ⟨hn1, ?_⟩)
                rw [lookupA_cons, if_neg hpk]
                exact hn2
            · rw [hbp] at hkeq
              subst hkeq
              refine Or.inr (Or.inr ⟨hmiss, ?_⟩)
              rw [lookupA_cons, if_pos rfl]
              exact fun hc => Option.noConfusion hc
    · -- importLoop
      cases imps with
      | nil =>
        cases fuel <;> (simp only [importLoop] at h; subst h; exact ⟨typesDelta_refl rfl, rfl⟩)
      | cons i rest =>
        simp only [importLoop] at h
        split at h
        · rename_i e1 q1 st1 hG
          subst h
          have hx := ihG _ _ _ _ _ hG
          exact hx
        · rename_i q1 st1 hG
          obtain ⟨hT1, hE1⟩ := ihG _ _ _ _ _ hG
          obtain ⟨hT2, hE2⟩ := ihI _ _ _ _ h
          exact ⟨typesDelta_trans hT1 hT2 (mpG _ _ _ _ _ hG) (mpI _ _ _ _ h),
            hE2.trans hE1⟩
    · -- loadImports
      cases work with
      | nil =>
        cases fuel <;> (simp only [loadImports] at h; subst h; exact typesDelta_refl rfl)
      | cons imp rest =>
        simp only [loadImports] at h
        split at h
        · exact ihL _ _ _ _ _ _ h
        · split at h
          · exact ihL _ _ _ _ _ _ h
          · split at h
            · rename_i e1 l2 j2 st2 hL
              subst h
              exact ihL _ _ _ _ _ _ hL
            · rename_i l2 j2 st2 hL
              split at h
              · rename_i e2 q2 st3 hG
                subst h
                exact typesDelta_trans (ihL _ _ _ _ _ _ hL) (ihG _ _ _ _ _ hG).1
                  (mpL _ _ _ _ _ _ hL) (mpG _ _ _ _ _ hG)
              · rename_i q2 st3 hG
                have hT1 := ihL _ _ _ _ _ _ hL
                have hT2 := (ihG _ _ _ _ _ hG).1
                have hT3 := ihL _ _ _ _ _ _ h
                have hTmid : TypesDelta st3 { st3 with emitLog := st3.emitLog ++ [imp] } :=
                  typesDelta_refl rfl
                have hPmid : PkgPreserved st3 { st3 with emitLog := st3.emitLog ++ [imp] } :=
                  fun k v hv => hv
                exact typesDelta_trans hT1
                  (typesDelta_trans hT2 (typesDelta_trans hTmid hT3 hPmid (mpL _ _ _ _ _ _ h))
                    (mpG _ _ _ _ _ hG)
                    (pkgPreserved_trans hPmid (mpL _ _ _ _ _ _ h)))
                  (mpL _ _ _ _ _ _ hL)
                  (pkgPreserved_trans (mpG _ _ _ _ _ hG)
                    (pkgPreserved_trans hPmid (mpL _ _ _ _ _ _ h)))
    · -- buildPackage
      simp only [buildPackage] at h
      split at h
      · rename_i hu
        subst h
        refine ⟨?_, fun _ => rfl⟩
        intro k hk
        rcases List.mem_cons.mp hk with hku | hks
        · exact Or.inr (Or.inl hku)
        · exact Or.inl hks
      · rename_i hnu
        split at h
        · rename_i e1 pkgIL stIL hI
          subst h
          obtain ⟨hT1, hE1⟩ := ihI _ _ _ _ hI
          exact ⟨fun k hk => (hT1 k hk).imp id (Or.imp id Or.inl), fun _ => hE1⟩
        · rename_i pkgIL stIL hI
          obtain ⟨hTI, hEI⟩ := ihI _ _ _ _ hI
          have hpk : pkgIL.pkg = pkg.pkg := (importLoop_shape w fuel _ _ _ _ hI).1
          split at h
          · rename_i e2 accGF hGF
            subst h
            exact ⟨fun k hk => (hTI k hk).imp id (Or.imp id Or.inl), fun _ => hEI⟩
          · rename_i accGF hGF
            split at h
            · rename_i content hHit
              split at h
              · rename_i hCmd
                subst h
                exact ⟨fun k hk => (hTI k hk).imp id (Or.imp id Or.inl), fun _ => hEI⟩
              · rename_i hCmd
                subst h
                refine ⟨?_, fun _ => hEI⟩
                intro k hk
                rcases List.mem_cons.mp hk with hkp | hks
                · rw [hpk] at hkp
                  exact Or.inr (Or.inr (Or.inr ⟨hkp, Or.inl rfl⟩))
                · exact (hTI k hks).imp id (Or.imp id Or.inl)
            · rename_i hHit
              split at h
              · rename_i hT
                subst h
                exact ⟨fun k hk => (hTI k hk).imp id (Or.imp id Or.inl), fun _ => hEI⟩
              · rename_i packageCode hT
                split at h
                · rename_i hCmd
                  have hCmd' : isCommand pkg.pkg = true := hpk ▸ hCmd
                  split at h
                  · rename_i e3 l2 js2 st5 hL
                    subst h
                    refine ⟨?_, fun hNC => Bool.noConfusion (hNC ▸ hCmd')⟩
                    intro k hk
                    have hTL := ihL _ _ _ _ _ _ hL
                    rcases hTL k hk with hk4 | hu | ⟨hn1, hn2⟩
                    · rcases List.mem_cons.mp hk4 with hkp | hks
                      · rw [hpk] at hkp
                        exact Or.inr (Or.inr (Or.inr ⟨hkp, Or.inr hCmd'⟩))
                      · exact (hTI k hks).imp id (Or.imp id (fun hn =>
                          Or.inl ⟨hn.1, lookupA_ne_none_of_preserved (mpL _ _ _ _ _ _ hL) hn.2⟩))
                    · exact Or.inr (Or.inl hu)
                    · exact Or.inr (Or.inr (Or.inl
                        ⟨lookupA_none_of_preserved (mpI _ _ _ _ hI) hn1, hn2⟩))
                  · rename_i l2 js2 st5 hL
                    have hTL := ihL _ _ _ _ _ _ hL
                    simp only [finishBuild] at h
                    split at h <;> subst h <;>
                      refine ⟨?_, fun hNC => Bool.noConfusion (hNC ▸ hCmd')⟩ <;>
                      (intro k hk;
                       rcases hTL k hk with hk4 | hu | ⟨hn1, hn2⟩;
                       · rcases List.mem_cons.mp hk4 with hkp | hks
                         · rw [hpk] at hkp
                           exact Or.inr (Or.inr (Or.inr ⟨hkp, Or.inr hCmd'⟩))
                         · exact (hTI k hks).imp id (Or.imp id (fun hn =>
                             Or.inl ⟨hn.1, lookupA_ne_none_of_preserved (mpL _ _ _ _ _ _ hL) hn.2⟩))
                       · exact Or.inr (Or.inl hu)
                       · exact Or.inr (Or.inr (Or.inl
                           ⟨lookupA_none_of_preserved (mpI _ _ _ _ hI) hn1, hn2⟩)))
                · rename_i hCmd
                  simp only [finishBuild] at h
                  split at h <;> subst h <;>
                    refine ⟨?_, fun _ => hEI⟩ <;>
                    (intro k hk;
                     rcases List.mem_cons.mp hk with hkp | hks;
                     · rw [hpk] at hkp
                       exact Or.inr (Or.inr (Or.inr ⟨hkp, Or.inl rfl⟩))
                     · exact (hTI k hks).imp id (Or.imp id Or.inl))

/-- A successful `getPackage` leaves the returned descriptor in the cache
under the requested identity. -/
theorem getPackage_post (w : World) : ∀ fuel p d b st q st',
    getPackage fuel w p d b st = (none, q, st') → lookupA st'.packages p = some q := by
  intro fuel p d b st q st' h
  cases fuel with
  | zero => cases h
  | succ fuel =>
    simp only [getPackage] at h
    split at h
    · rename_i pkg0 hhit
      simp only [Prod.mk.injEq] at h
      obtain ⟨-, hq, hst⟩ := h
      subst hq
      subst hst
      exact hhit
    · rename_i hmiss
      split at h
      · cases h
      · rename_i otherPkg hres
        split at h
        · cases h
        · rename_i pkg1 st2 hB
          simp only [Prod.mk.injEq] at h
          obtain ⟨-, hq, hst⟩ := h
          subst hq
          subst hst
          rw [lookupA_cons, if_pos rfl]

/-- The source-file fold never lowers the freshness accumulator. -/
theorem goFilesScan_mono (fs : List (String × Nat × Bytes)) (dir : String) :
    ∀ files acc r, goFilesScan fs dir files acc = r → acc ≤ r.2 := by
  intro files
  induction files with
  | nil =>
    intro acc r h
    subst h
    exact le_refl _
  | cons name rest ih =>
    intro acc r h
    simp only [goFilesScan] at h
    split at h
    · subst h
      exact le_refl _
    · rename_i mtime content hstat
      refine le_trans ?_ (ih _ r h)
      split
      · rename_i hlt
        exact le_of_lt hlt
      · exact le_refl _

/-- After a successful import loop, every processed import is cached with a
freshness timestamp no greater than the folded accumulator. -/
theorem importLoop_post (w : World) : ∀ fuel imps pkg st pkg2 st2,
    importLoop fuel w imps pkg st = (none, pkg2, st2) →
    ∀ i ∈ imps, ∃ q, lookupA st2.packages i = some q ∧
      q.srcLastModified ≤ pkg2.srcLastModified := by
  intro fuel
  induction fuel with
  | zero =>
    intro imps pkg st pkg2 st2 h
    cases h
  | succ fuel ih =>
    intro imps pkg st pkg2 st2 h
    cases imps with
    | nil =>
      intro i hi
      cases hi
    | cons i0 rest =>
      simp only [importLoop] at h
      split at h
      · cases h
      · rename_i q1 st1 hG
        intro i hi
        rcases List.mem_cons.mp hi with hi0 | hirest
        · subst hi0
          have hcache := getPackage_post w fuel i _ true st q1 st1 hG
          have hpres := (masterPkg w fuel).2.1 _ _ _ _ h
          refine ⟨q1, hpres i q1 hcache, ?_⟩
          have hshape := importLoop_shape w fuel rest _ st1 _ h
          refine le_trans ?_ hshape.2.2
          split
          · exact le_refl _
          · rename_i hnlt
            exact Nat.le_of_not_lt hnlt
        · exact ih rest _ st1 pkg2 st2 h i hirest

/-- At a successful non-unsafe build, every import of the package is cached
with a freshness timestamp no greater than the built descriptor's. -/
theorem buildPackage_imports_fresh (w : World) (fuel : Nat) (pkg : GopherPackage) (wtd : Bool)
    (st : St) (pkg' : GopherPackage) (st' : St)
    (h : buildPackage fuel w pkg wtd st = (none, pkg', st'))
    (hnu : pkg.pkg.importPath ≠ "unsafe") :
    ∀ i ∈ pkg.pkg.imports, ∃ q, lookupA st'.packages i = some q ∧
      q.srcLastModified ≤ pkg'.srcLastModified := by
  cases fuel with
  | zero => cases h
  | succ fuel =>
    simp only [buildPackage] at h
    split at h
    · rename_i hu
      exact absurd hu hnu
    · rename_i hnu2
      split at h
      · cases h
      · rename_i pkgIL stIL hI
        have hpost := importLoop_post w fuel _ _ _ _ _ hI
        split at h
        · cases h
        · rename_i accGF hGF
          have hacc : pkgIL.srcLastModified ≤ accGF :=
            goFilesScan_mono stIL.fs pkgIL.pkg.dir pkgIL.pkg.goFiles pkgIL.srcLastModified
              (none, accGF) hGF
          have hstep : ∀ i ∈ pkg.pkg.imports, ∃ q, lookupA stIL.packages i = some q ∧
              q.srcLastModified ≤ accGF :=
            fun i hi => (hpost i hi).imp (fun q hq => ⟨hq.1, le_trans hq.2 hacc⟩)
          split at h
          · rename_i content hHit
            split at h <;>
              (simp only [Prod.mk.injEq] at h;
               obtain ⟨-, hq, hst⟩ := h;
               subst hq; subst hst;
               exact hstep)
          · rename_i hHit
            split at h
            · cases h
            · rename_i packageCode hT
              split at h
              · rename_i hCmd
                split at h
                · cases h
                · rename_i l2 js2 st5 hL
                  have hpres := (masterPkg w fuel).2.2.1 _ _ _ _ _ _ hL
                  simp only [finishBuild] at h
                  split at h <;>
                    (simp only [Prod.mk.injEq] at h;
                     obtain ⟨-, hq, hst⟩ := h;
                     subst hq; subst hst;
                     exact fun i hi => (hstep i hi).imp (fun q hq => ⟨hpres i q hq.1, hq.2⟩))
              · rename_i hCmd
                simp only [finishBuild] at h
                split at h <;>
                  (simp only [Prod.mk.injEq] at h;
                   obtain ⟨-, hq, hst⟩ := h;
                   subst hq; subst hst;
                   exact hstep)

/-- A failing build never stores a compiled payload on the descriptor. -/
theorem buildPackage_js_on_error (w : World) (fuel : Nat) (pkg : GopherPackage) (wtd : Bool)
    (st : St) (e : Err) (pkg' : GopherPackage) (st' : St)
    (h : buildPackage fuel w pkg wtd st = (some e, pkg', st')) :
    pkg'.javaScriptCode = pkg.javaScriptCode := by
  cases fuel with
  | zero =>
    simp only [buildPackage, Prod.mk.injEq] at h
    obtain ⟨-, hq, -⟩ := h
    subst hq
    rfl
  | succ fuel =>
    simp only [buildPackage] at h
    split at h
    · cases h
    · split at h
      · rename_i e1 pkgIL stIL hI
        simp only [Prod.mk.injEq] at h
        obtain ⟨-, hq, -⟩ := h
        subst hq
        exact (importLoop_shape w fuel _ _ _ _ hI).2.1
      · rename_i pkgIL stIL hI
        split at h
        · rename_i e2 accGF hGF
          simp only [Prod.mk.injEq] at h
          obtain ⟨-, hq, -⟩ := h
          subst hq
          exact (importLoop_shape w fuel _ _ _ _ hI).2.1
        · rename_i accGF hGF
          split at h
          · split at h <;> cases h
          · split at h
            · rename_i hT
              simp only [Prod.mk.injEq] at h
              obtain ⟨-, hq, -⟩ := h
              subst hq
              exact (importLoop_shape w fuel _ _ _ _ hI).2.1
            · rename_i packageCode hT
              split at h
              · split at h
                · rename_i e3 l2 js2 st5 hL
                  simp only [Prod.mk.injEq] at h
                  obtain ⟨-, hq, -⟩ := h
                  subst hq
                  exact (importLoop_shape w fuel _ _ _ _ hI).2.1
                · simp only [finishBuild] at h
                  split at h <;> cases h
              · simp only [finishBuild] at h
                split at h <;> cases h

/-- A successful pass of the bundle assembler appends a duplicate-free batch
of module registrations to the emission log: every emitted identity is newly
loaded during the pass, none is a pseudo-identity or was loaded before, and
the loaded set only grows. -/
theorem loadImports_emits (w : World) (hwf : LibResolve w) :
    ∀ fuel dir work loaded js st loaded' js' st',
    loadImports fuel w dir work loaded js st = (none, loaded', js', st') →
    ∃ L, st'.emitLog = st.emitLog ++ L ∧ L.Nodup ∧
      (∀ x ∈ L, x ∈ loaded' ∧ x ∉ loaded ∧
        ¬(x = "unsafe" ∨ x = "reflect" ∨ x = "go/doc")) ∧
      (∀ x ∈ loaded, x ∈ loaded') := by
  intro fuel
  induction fuel with
  | zero =>
    intro dir work loaded js st loaded' js' st' h
    cases h
  | succ fuel ih =>
    intro dir work loaded js st loaded' js' st' h
    cases work with
    | nil =>
      simp only [loadImports, Prod.mk.injEq] at h
      obtain ⟨-, hload, -, hst⟩ := h
      subst hload
      subst hst
      exact ⟨[], by simp, List.nodup_nil, by simp, fun x hx => hx⟩
    | cons imp rest =>
      simp only [loadImports] at h
      split at h
      · exact ih dir rest loaded js st loaded' js' st' h
      · rename_i hpseudo
        split at h
        · exact ih dir rest loaded js st loaded' js' st' h
        · rename_i hloaded
          have hnotmem : imp ∉ loaded := by
            simp at hloaded
            exact hloaded
          split at h
          · cases h
          · rename_i l2 j2 st2 hL1
            split at h
            · cases h
            · rename_i q2 st3 hG
              obtain ⟨L1, he1, hn1, hp1, hm1⟩ :=
                ih dir (w.typeImports imp) (imp :: loaded) js st l2 j2 st2 hL1
              obtain ⟨L2, he2, hn2, hp2, hm2⟩ :=
                ih dir rest l2 _ _ loaded' js' st' h
              have hEG : st3.emitLog = st2.emitLog :=
                ((masterTypes w hwf fuel).1 _ _ _ _ _ hG).2
              have himpl2 : imp ∈ l2 := hm1 imp (List.mem_cons_self imp loaded)
              refine ⟨L1 ++ imp :: L2, ?_, ?_, ?_, ?_⟩
              · rw [he2]
                show st3.emitLog ++ [imp] ++ L2 = st.emitLog ++ (L1 ++ imp :: L2)
                rw [hEG, he1]
                simp
              · refine List.Nodup.append hn1 ?_ ?_
                · refine List.nodup_cons.mpr ⟨?_, hn2⟩
                  exact fun hmem => (hp2 imp hmem).2.1 himpl2
                · intro x hx1 hx2
                  rcases List.mem_cons.mp hx2 with hxi | hxl
                  · subst hxi
                    exact (hp1 x hx1).2.1 (List.mem_cons_self x loaded)
                  · exact (hp2 x hxl).2.1 ((hp1 x hx1).1)
              · intro x hx
                rcases List.mem_append.mp hx with hx1 | hx2
                · obtain ⟨hxl2, hxnl, hxp⟩ := hp1 x hx1
                  exact ⟨hm2 x hxl2, fun hmem => hxnl (List.mem_cons_of_mem _ hmem), hxp⟩
                · rcases List.mem_cons.mp hx2 with hxi | hxl
                  · subst hxi
                    exact ⟨hm2 x himpl2, hnotmem, hpseudo⟩
                  · obtain ⟨hxl', hxnl2, hxp⟩ := hp2 x hxl
                    exact ⟨hxl', fun hmem =>
                      hxnl2 (hm1 x (List.mem_cons_of_mem _ hmem)), hxp⟩
              · exact fun x hx => hm2 x (hm1 x (List.mem_cons_of_mem _ hx))

/-- C10: for the build and run subcommands the artifact path is derived as
basename[:len(basename)-3] + ".js"; a base name of at least three
characters yields that slice plus the suffix, while any base name shorter
than three characters makes the slice expression panic rather than return
an error. -/
theorem C10_short_basename_panics :
    (∀ filename, (pathBase filename).length < 3 → mainPkgObj filename = none) ∧
    (∀ filename, 3 ≤ (pathBase filename).length →
      mainPkgObj filename =
        some (String.mk ((pathBase filename).data.take ((pathBase filename).length - 3))
          ++ ".js")) ∧
    mainPkgObj "src/app.go" = some "app.js" ∧ mainPkgObj "src/ab" = none := by
  refine ⟨?_, ?_, by decide, by decide⟩
  · intro f h
    simp only [mainPkgObj, goSlicePrefix]
    rw [if_pos (Or.inl (by omega))]
    rfl
  · intro f h
    simp only [mainPkgObj, goSlicePrefix]
    rw [if_neg (by omega)]
    have ht : (((pathBase f).length : Int) - 3).toNat = (pathBase f).length - 3 := by omega
    rw [ht]
    rfl

/-- C10 witness: a two-character base name panics; a long enough one
yields the sliced name plus the .js suffix. -/
theorem C10_short_basename_panics_witness :
    mainPkgObj "ab" = none ∧
    mainPkgObj "abc.go" =
      some (String.mk ((pathBase "abc.go").data.take ((pathBase "abc.go").length - 3))
        ++ ".js") :=
  ⟨C10_short_basename_panics.1 "ab" (by decide),
   C10_short_basename_panics.2.1 "abc.go" (by decide)⟩

/-- C7: the artifact scan stops only where the window equals the exact
sentinel bytes (dollar, dollar, newline); if no window on the scanned file
matches, the read yields an empty payload (and success); and an artifact
whose metadata blob contains stray dollar-dollar bytes not on a line
boundary still decodes its payload correctly. -/
theorem C7_sentinel_scan :
    (∀ file S off, scanBack file S = some off →
      3 ≤ off ∧ windowAt file (off - 3) = sentinelBytes) ∧
    (∀ file : Bytes, (∀ q < file.length, windowAt file q ≠ sentinelBytes) →
      readPayloadFromEnd file = []) ∧
    readPayloadFromEnd (strBytes "M$$X" ++ (sentinelBytes ++ strBytes "PAYLOAD")) =
      strBytes "PAYLOAD" := by
  refine ⟨fun file => scanBack_stops file, ?_, by decide⟩
  intro file hno
  unfold readPayloadFromEnd
  split
  · rfl
  · rename_i hlen
    rw [scanBack_none file _ (fun q hq => hno q (by omega))]

/-- C7 witness: the scan lemmas applied at concrete inputs — the scan of a
file stopping at offset 3 indeed sits on an exact sentinel window, and a
file without any sentinel window decodes to the empty payload. -/
theorem C7_sentinel_scan_witness :
    (3 ≤ 3 ∧ windowAt [36, 36, 10, 65] (3 - 3) = sentinelBytes) ∧
    readPayloadFromEnd [1, 2, 3, 4, 5] = [] :=
  ⟨C7_sentinel_scan.1 [36, 36, 10, 65] 1 3 (by decide),
   C7_sentinel_scan.2.1 [1, 2, 3, 4, 5] (by decide)⟩

/-- C4 counterexample: the round trip is not byte-identical for every
payload.  A library whose compiled payload itself contains the sentinel
line is persisted in full, and the rebuild does take the cache-hit path
without invoking the Translation Collaborator — but the payload read back
from disk is not the payload that was persisted. -/
theorem C4_counterexample :
    lookupA ((c4Run1 c4Evil).2.2).fs "pkg/l.js" =
      some (100, strBytes "META-l\n" ++ (sentinelBytes ++ c4Evil)) ∧
    (c4Run2 c4Evil).1 = none ∧ ((c4Run2 c4Evil).2.2).translateLog = [] ∧
    ((c4Run2 c4Evil).2.1).javaScriptCode ≠ c4Evil := by decide

/-- C4 amended: when a library's artifact is newer than the freshness
timestamp and persist is set, the rebuild skips the Translation
Collaborator and loads the payload from disk; the payload read back equals
the payload persisted provided the payload is nonempty and the bytes after
the metadata's closing sentinel contain no further sentinel window. -/
theorem C4_cache_roundtrip_amended :
    (∀ meta payload : Bytes, payload ≠ [] →
      (∀ q < meta.length + 3 + payload.length, meta.length < q →
        windowAt (meta ++ (sentinelBytes ++ payload)) q ≠ sentinelBytes) →
      readPayloadFromEnd (meta ++ (sentinelBytes ++ payload)) = payload) ∧
    ((c4Run2 c4Good).1 = none ∧ ((c4Run2 c4Good).2.2).translateLog = [] ∧
      ((c4Run2 c4Good).2.1).javaScriptCode = c4Good ∧
      lookupA ((c4Run1 c4Good).2.2).fs "pkg/l.js" =
        some (100, strBytes "META-l\n" ++ (sentinelBytes ++ c4Good))) := by
  refine ⟨?_, by decide⟩
  intro meta payload hp hno
  exact readPayload_roundTrip meta payload hp (fun q h1 h2 => hno q (by omega) h1)

/-- C4 witness: the general round trip applied at a concrete metadata blob
and payload. -/
theorem C4_cache_roundtrip_amended_witness :
    readPayloadFromEnd (strBytes "AB" ++ (sentinelBytes ++ [66, 67])) = [66, 67] :=
  C4_cache_roundtrip_amended.1 (strBytes "AB") [66, 67] (by decide) (by decide)

/-- C1 counterexample: a dependency first fetched through the package cache
during bundle assembly is built with persist on, and its per-dependency
artifact is written to disk — not only the final executable artifact.  In
this run the library c is requested only by the bundle assembler (the
emission log shows it, and the build log shows c built after the
executable's own build started), and its artifact appears on disk. -/
theorem C1_counterexample :
    lookupA (stInit c1FS 100).fs "pkg/c.js" = none ∧
    c1Run.1 = none ∧ (c1Run.2.2).buildLog = ["m", "c"] ∧ (c1Run.2.2).emitLog = ["c"] ∧
    lookupA (c1Run.2.2).fs "pkg/c.js" =
      some (100, strBytes "META-c\n" ++ (sentinelBytes ++ strBytes "CCODE\n")) := by
  decide

/-- C1 amended: getPackage ignores its writeToDisk argument entirely —
every build it triggers runs with persist on — so a dependency fetched
during bundle assembly has its artifact persisted like any other, as the
concrete run shows. -/
theorem C1_amended :
    (∀ fuel w p d b1 b2 st, getPackage fuel w p d b1 st = getPackage fuel w p d b2 st) ∧
    lookupA (c1Run.2.2).fs "pkg/c.js" =
      some (100, strBytes "META-c\n" ++ (sentinelBytes ++ strBytes "CCODE\n")) := by
  refine ⟨?_, by decide⟩
  intro fuel w p d b1 b2 st
  cases fuel <;> rfl

theorem bump_self (st : St) (k : String) : bump st st k = 0 := by
  unfold bump
  split
  · rename_i h
    exact absurd h.1 h.2
  · rfl

theorem bump_chain {a b c : St} (hp1 : PkgPreserved a b) (hp2 : PkgPreserved b c)
    (k : String) : bump a b k + bump b c k ≤ bump a c k := by
  unfold bump
  split
  · rename_i h1
    split
    · rename_i h2
      exact absurd h2.1 h1.2
    · rw [if_pos ⟨h1.1, lookupA_ne_none_of_preserved hp2 h1.2⟩]
  · rename_i h1
    split
    · rename_i h2
      rw [if_pos ⟨lookupA_none_of_preserved hp1 h2.1, h2.2⟩]
    · exact Nat.zero_le _

theorem count_append_one (l : List String) (x k : String) :
    (l ++ [x]).count k = l.count k + (if k = x then 1 else 0) := by
  rw [List.count_append]
  by_cases h : k = x
  · subst h
    simp
  · simp [h]

/-- At most one build and one translation per identity per run: across every
operation, an identity's build-log and translate-log counts grow only when
the identity newly enters the package cache (plus once for `buildPackage`'s
own argument). -/
theorem masterCount (w : World) (hwf : LibResolve w) : ∀ fuel : Nat,
    (∀ p d b st r, getPackage fuel w p d b st = r → ∀ k,
      r.2.2.buildLog.count k ≤ st.buildLog.count k + bump st r.2.2 k ∧
      r.2.2.translateLog.count k ≤ st.translateLog.count k + bump st r.2.2 k) ∧
    (∀ imps pkg st r, importLoop fuel w imps pkg st = r → ∀ k,
      r.2.2.buildLog.count k ≤ st.buildLog.count k + bump st r.2.2 k ∧
      r.2.2.translateLog.count k ≤ st.translateLog.count k + bump st r.2.2 k) ∧
    (∀ dir work loaded js st r, loadImports fuel w dir work loaded js st = r → ∀ k,
      r.2.2.2.buildLog.count k ≤ st.buildLog.count k + bump st r.2.2.2 k ∧
      r.2.2.2.translateLog.count k ≤ st.translateLog.count k + bump st r.2.2.2 k) ∧
    (∀ pkg wtd st r, buildPackage fuel w pkg wtd st = r → ∀ k,
      r.2.2.buildLog.count k ≤ st.buildLog.count k + bump st r.2.2 k +
        (if k = pkg.pkg.importPath then 1 else 0) ∧
      r.2.2.translateLog.count k ≤ st.translateLog.count k + bump st r.2.2 k +
        (if k = pkg.pkg.importPath then 1 else 0)) := by
  intro fuel
  induction fuel with
  | zero =>
    refine ⟨fun p d b st r h => ?_, fun imps pkg st r h => ?_,
      fun dir work loaded js st r h => ?_, fun pkg wtd st r h => ?_⟩
    all_goals
      simp only [getPackage, importLoop, loadImports, buildPackage] at h
      subst h
      intro k
      constructor <;> (dsimp only; omega)
  | succ fuel ih =>
    obtain ⟨ihG, ihI, ihL, ihB⟩ := ih
    obtain ⟨mpG, mpI, mpL, mpB⟩ := masterPkg w fuel
    refine ⟨fun p d b st r h => ?_, fun imps pkg st r h => ?_,
      fun dir work loaded js st r h => ?_, fun pkg wtd st r h => ?_⟩
    · -- getPackage
      simp only [getPackage] at h
      split at h
      · subst h
        intro k
        constructor <;> (dsimp only; omega)
      · rename_i hmiss
        split at h
        · subst h
          intro k
          constructor <;> (dsimp only; omega)
        · rename_i otherPkg hres
          obtain ⟨hbp, -⟩ := hwf p otherPkg hres
          split at h
          case _ e1 pkg1 st2 hB =>
            subst h
            intro k
            have hc := ihB _ _ _ _ hB k
            have hc1 : st2.buildLog.count k ≤ st.buildLog.count k +
                bump { st with packages := (p, ⟨otherPkg, 0, []⟩) :: st.packages } st2 k +
                (if k = otherPkg.importPath then 1 else 0) := hc.1
            have hc2 : st2.translateLog.count k ≤ st.translateLog.count k +
                bump { st with packages := (p, ⟨otherPkg, 0, []⟩) :: st.packages } st2 k +
                (if k = otherPkg.importPath then 1 else 0) := hc.2
            rw [hbp] at hc1 hc2
            by_cases hk : k = p
            · subst hk
              have hb0 : bump { st with packages := (k, (⟨otherPkg, 0, []⟩ : GopherPackage))
                  :: st.packages } st2 k = 0 := by
                unfold bump
                rw [if_neg]
                intro hcon
                rw [show lookupA ({ st with packages := (k, (⟨otherPkg, 0, []⟩ : GopherPackage))
                  :: st.packages } : St).packages k = some ⟨otherPkg, 0, []⟩ from by
                    rw [lookupA_cons, if_pos rfl]] at hcon
                exact Option.noConfusion hcon.1
              have hb1 : bump st { st2 with packages := (k, pkg1) :: st2.packages } k = 1 := by
                unfold bump
                rw [if_pos]
                refine ⟨hmiss, ?_⟩
                rw [show lookupA ({ st2 with packages := (k, pkg1) :: st2.packages } : St).packages k
                  = some pkg1 from by rw [lookupA_cons, if_pos rfl]]
                exact fun hcc => Option.noConfusion hcc
              rw [hb0] at hc1 hc2
              rw [if_pos rfl] at hc1 hc2
              constructor
              · show st2.buildLog.count k ≤ st.buildLog.count k +
                  bump st { st2 with packages := (k, pkg1) :: st2.packages } k
                rw [hb1]
                omega
              · show st2.translateLog.count k ≤ st.translateLog.count k +
                  bump st { st2 with packages := (k, pkg1) :: st2.packages } k
                rw [hb1]
                omega
            · have he1 : lookupA ({ st with packages := (p, (⟨otherPkg, 0, []⟩ : GopherPackage))
                  :: st.packages } : St).packages k = lookupA st.packages k :=
                lookupA_cons_ne _ _ (fun hpk => hk hpk.symm)
              have he2 : lookupA ({ st2 with packages := (p, pkg1) :: st2.packages } : St).packages k
                  = lookupA st2.packages k :=
                lookupA_cons_ne _ _ (fun hpk => hk hpk.symm)
              have heq : bump { st with packages := (p, (⟨otherPkg, 0, []⟩ : GopherPackage))
                  :: st.packages } st2 k =
                  bump st { st2 with packages := (p, pkg1) :: st2.packages } k := by
                unfold bump
                rw [he1, he2]
              rw [heq] at hc1 hc2
              rw [if_neg hk] at hc1 hc2
              constructor
              · show st2.buildLog.count k ≤ st.buildLog.count k +
                  bump st { st2 with packages := (p, pkg1) :: st2.packages } k
                omega
              · show st2.translateLog.count k ≤ st.translateLog.count k +
                  bump st { st2 with packages := (p, pkg1) :: st2.packages } k
                omega
          case _ pkg1 st2 hB =>
            subst h
            intro k
            have hc := ihB _ _ _ _ hB k
            have hc1 : st2.buildLog.count k ≤ st.buildLog.count k +
                bump { st with packages := (p, ⟨otherPkg, 0, []⟩) :: st.packages } st2 k +
                (if k = otherPkg.importPath then 1 else 0) := hc.1
            have hc2 : st2.translateLog.count k ≤ st.translateLog.count k +
                bump { st with packages := (p, ⟨otherPkg, 0, []⟩) :: st.packages } st2 k +
                (if k = otherPkg.importPath then 1 else 0) := hc.2
            rw [hbp] at hc1 hc2
            by_cases hk : k = p
            · subst hk
              have hb0 : bump { st with packages := (k, (⟨otherPkg, 0, []⟩ : GopherPackage))
                  :: st.packages } st2 k = 0 := by
                unfold bump
                rw [if_neg]
                intro hcon
                rw [show lookupA ({ st with packages := (k, (⟨otherPkg, 0, []⟩ : GopherPackage))
                  :: st.packages } : St).packages k = some ⟨otherPkg, 0, []⟩ from by
                    rw [lookupA_cons, if_pos rfl]] at hcon
                exact Option.noConfusion hcon.1
              have hb1 : bump st { st2 with packages := (k, pkg1) :: st2.packages } k = 1 := by
                unfold bump
                rw [if_pos]
                refine ⟨hmiss, ?_⟩
                rw [show lookupA ({ st2 with packages := (k, pkg1) :: st2.packages } : St).packages k
                  = some pkg1 from by rw [lookupA_cons, if_pos rfl]]
                exact fun hcc => Option.noConfusion hcc
              rw [hb0] at hc1 hc2
              rw [if_pos rfl] at hc1 hc2
              constructor
              · show st2.buildLog.count k ≤ st.buildLog.count k +
                  bump st { st2 with packages := (k, pkg1) :: st2.packages } k
                rw [hb1]
                omega
              · show st2.translateLog.count k ≤ st.translateLog.count k +
                  bump st { st2 with packages := (k, pkg1) :: st2.packages } k
                rw [hb1]
                omega
            · have he1 : lookupA ({ st with packages := (p, (⟨otherPkg, 0, []⟩ : GopherPackage))
                  :: st.packages } : St).packages k = lookupA st.packages k :=
                lookupA_cons_ne _ _ (fun hpk => hk hpk.symm)
              have he2 : lookupA ({ st2 with packages := (p, pkg1) :: st2.packages } : St).packages k
                  = lookupA st2.packages k :=
                lookupA_cons_ne _ _ (fun hpk => hk hpk.symm)
              have heq : bump { st with packages := (p, (⟨otherPkg, 0, []⟩ : GopherPackage))
                  :: st.packages } st2 k =
                  bump st { st2 with packages := (p, pkg1) :: st2.packages } k := by
                unfold bump
                rw [he1, he2]
              rw [heq] at hc1 hc2
              rw [if_neg hk] at hc1 hc2
              constructor
              · show st2.buildLog.count k ≤ st.buildLog.count k +
                  bump st { st2 with packages := (p, pkg1) :: st2.packages } k
                omega
              · show st2.translateLog.count k ≤ st.translateLog.count k +
                  bump st { st2 with packages := (p, pkg1) :: st2.packages } k
                omega
    · -- importLoop
      cases imps with
      | nil =>
        cases fuel
        all_goals
          simp only [importLoop] at h
          subst h
          intro k
          constructor <;> (dsimp only; omega)
      | cons i rest =>
        simp only [importLoop] at h
        split at h
        case _ e1 q1 st1 hG =>
          subst h
          intro k
          have hca : st1.buildLog.count k ≤ st.buildLog.count k + bump st st1 k :=
            (ihG _ _ _ _ _ hG k).1
          have hcb : st1.translateLog.count k ≤ st.translateLog.count k + bump st st1 k :=
            (ihG _ _ _ _ _ hG k).2
          constructor
          · show st1.buildLog.count k ≤ st.buildLog.count k + bump st st1 k
            omega
          · show st1.translateLog.count k ≤ st.translateLog.count k + bump st st1 k
            omega
        case _ q1 st1 hG =>
          intro k
          have hca : st1.buildLog.count k ≤ st.buildLog.count k + bump st st1 k :=
            (ihG _ _ _ _ _ hG k).1
          have hcb : st1.translateLog.count k ≤ st.translateLog.count k + bump st st1 k :=
            (ihG _ _ _ _ _ hG k).2
          have hda : r.2.2.buildLog.count k ≤ st1.buildLog.count k + bump st1 r.2.2 k :=
            (ihI _ _ _ _ h k).1
          have hdb : r.2.2.translateLog.count k ≤ st1.translateLog.count k +
              bump st1 r.2.2 k := (ihI _ _ _ _ h k).2
          have hbc : bump st st1 k + bump st1 r.2.2 k ≤ bump st r.2.2 k :=
            bump_chain (mpG _ _ _ _ _ hG) (mpI _ _ _ _ h) k
          constructor <;> omega
    · -- loadImports
      cases work with
      | nil =>
        cases fuel
        all_goals
          simp only [loadImports] at h
          subst h
          intro k
          constructor <;> (dsimp only; omega)
      | cons imp rest =>
        simp only [loadImports] at h
        split at h
        · intro k
          exact ihL _ _ _ _ _ _ h k
        · split at h
          · intro k
            exact ihL _ _ _ _ _ _ h k
          · split at h
            case _ e1 l2 j2 st2 hL =>
              subst h
              intro k
              have hca : st2.buildLog.count k ≤ st.buildLog.count k + bump st st2 k :=
                (ihL _ _ _ _ _ _ hL k).1
              have hcb : st2.translateLog.count k ≤ st.translateLog.count k +
                  bump st st2 k := (ihL _ _ _ _ _ _ hL k).2
              constructor
              · show st2.buildLog.count k ≤ st.buildLog.count k + bump st st2 k
                omega
              · show st2.translateLog.count k ≤ st.translateLog.count k + bump st st2 k
                omega
            case _ l2 j2 st2 hL =>
              split at h
              case _ e2 q2 st3 hG =>
                subst h
                intro k
                have hca : st2.buildLog.count k ≤ st.buildLog.count k + bump st st2 k :=
                  (ihL _ _ _ _ _ _ hL k).1
                have hcb : st2.translateLog.count k ≤ st.translateLog.count k +
                    bump st st2 k := (ihL _ _ _ _ _ _ hL k).2
                have hda : st3.buildLog.count k ≤ st2.buildLog.count k + bump st2 st3 k :=
                  (ihG _ _ _ _ _ hG k).1
                have hdb : st3.translateLog.count k ≤ st2.translateLog.count k +
                    bump st2 st3 k := (ihG _ _ _ _ _ hG k).2
                have hbc : bump st st2 k + bump st2 st3 k ≤ bump st st3 k :=
                  bump_chain (mpL _ _ _ _ _ _ hL) (mpG _ _ _ _ _ hG) k
                constructor
                · show st3.buildLog.count k ≤ st.buildLog.count k + bump st st3 k
                  omega
                · show st3.translateLog.count k ≤ st.translateLog.count k + bump st st3 k
                  omega
              case _ q2 st3 hG =>
                intro k
                have hca : st2.buildLog.count k ≤ st.buildLog.count k + bump st st2 k :=
                  (ihL _ _ _ _ _ _ hL k).1
                have hcb : st2.translateLog.count k ≤ st.translateLog.count k +
                    bump st st2 k := (ihL _ _ _ _ _ _ hL k).2
                have hda : st3.buildLog.count k ≤ st2.buildLog.count k + bump st2 st3 k :=
                  (ihG _ _ _ _ _ hG k).1
                have hdb : st3.translateLog.count k ≤ st2.translateLog.count k +
                    bump st2 st3 k := (ihG _ _ _ _ _ hG k).2
                have heraw := ihL _ _ _ _ _ _ h k
                have he1 : r.2.2.2.buildLog.count k ≤
                    st3.buildLog.count k + bump st3 r.2.2.2 k := heraw.1
                have he2 : r.2.2.2.translateLog.count k ≤
                    st3.translateLog.count k + bump st3 r.2.2.2 k := heraw.2
                have hbc : bump st st2 k + bump st2 st3 k ≤ bump st st3 k :=
                  bump_chain (mpL _ _ _ _ _ _ hL) (mpG _ _ _ _ _ hG) k
                have hp3 : PkgPreserved st st3 :=
                  pkgPreserved_trans (mpL _ _ _ _ _ _ hL) (mpG _ _ _ _ _ hG)
                have hp4raw := mpL _ _ _ _ _ _ h
                have hp4 : PkgPreserved st3 r.2.2.2 := hp4raw
                have hbc2 : bump st st3 k + bump st3 r.2.2.2 k ≤ bump st r.2.2.2 k :=
                  bump_chain hp3 hp4 k
                constructor <;> omega
    · -- buildPackage
      simp only [buildPackage] at h
      split at h
      · subst h
        intro k
        constructor
        · show (st.buildLog ++ [pkg.pkg.importPath]).count k ≤ st.buildLog.count k +
            bump st st k + (if k = pkg.pkg.importPath then 1 else 0)
          rw [count_append_one, bump_self]
          omega
        · show st.translateLog.count k ≤ st.translateLog.count k +
            bump st st k + (if k = pkg.pkg.importPath then 1 else 0)
          omega
      · rename_i hnu
        split at h
        case _ e1 pkgIL stIL hI =>
          subst h
          intro k
          have hc1 : stIL.buildLog.count k ≤ (st.buildLog ++ [pkg.pkg.importPath]).count k +
              bump st stIL k := (ihI _ _ _ _ hI k).1
          have hc2 : stIL.translateLog.count k ≤ st.translateLog.count k +
              bump st stIL k := (ihI _ _ _ _ hI k).2
          rw [count_append_one] at hc1
          constructor
          · show stIL.buildLog.count k ≤ st.buildLog.count k + bump st stIL k +
              (if k = pkg.pkg.importPath then 1 else 0)
            omega
          · show stIL.translateLog.count k ≤ st.translateLog.count k + bump st stIL k +
              (if k = pkg.pkg.importPath then 1 else 0)
            omega
        case _ pkgIL stIL hI =>
          have hpk : pkgIL.pkg = pkg.pkg := (importLoop_shape w fuel _ _ _ _ hI).1
          have hc1 : ∀ k, stIL.buildLog.count k ≤
              (st.buildLog ++ [pkg.pkg.importPath]).count k + bump st stIL k :=
            fun k => (ihI _ _ _ _ hI k).1
          have hc2 : ∀ k, stIL.translateLog.count k ≤ st.translateLog.count k +
              bump st stIL k := fun k => (ihI _ _ _ _ hI k).2
          have hpI : PkgPreserved st stIL := mpI _ _ _ _ hI
          split at h
          case _ e2 accGF hGF =>
            subst h
            intro k
            have ha := hc1 k
            have hb := hc2 k
            rw [count_append_one] at ha
            constructor
            · show stIL.buildLog.count k ≤ st.buildLog.count k + bump st stIL k +
                (if k = pkg.pkg.importPath then 1 else 0)
              omega
            · show stIL.translateLog.count k ≤ st.translateLog.count k + bump st stIL k +
                (if k = pkg.pkg.importPath then 1 else 0)
              omega
          case _ accGF hGF =>
            split at h
            case _ content hHit =>
              split at h
              all_goals
                subst h
                intro k
                have ha := hc1 k
                have hb := hc2 k
                rw [count_append_one] at ha
                constructor
                · show stIL.buildLog.count k ≤ st.buildLog.count k + bump st stIL k +
                    (if k = pkg.pkg.importPath then 1 else 0)
                  omega
                · show stIL.translateLog.count k ≤ st.translateLog.count k + bump st stIL k +
                    (if k = pkg.pkg.importPath then 1 else 0)
                  omega
            case _ hHit =>
              split at h
              case _ hT =>
                subst h
                intro k
                have ha := hc1 k
                rw [count_append_one] at ha
                constructor
                · show stIL.buildLog.count k ≤ st.buildLog.count k + bump st stIL k +
                    (if k = pkg.pkg.importPath then 1 else 0)
                  omega
                · show (stIL.translateLog ++ [pkgIL.pkg.importPath]).count k ≤
                    st.translateLog.count k + bump st stIL k +
                    (if k = pkg.pkg.importPath then 1 else 0)
                  rw [count_append_one, hpk]
                  have hb := hc2 k
                  omega
              case _ packageCode hT =>
                split at h
                case _ hCmd =>
                  split at h
                  case _ e3 l2 js2 st5 hL =>
                    subst h
                    intro k
                    have ha := hc1 k
                    rw [count_append_one] at ha
                    have hd1 : st5.buildLog.count k ≤ stIL.buildLog.count k +
                        bump stIL st5 k := (ihL _ _ _ _ _ _ hL k).1
                    have hd2 : st5.translateLog.count k ≤
                        (stIL.translateLog ++ [pkgIL.pkg.importPath]).count k +
                        bump stIL st5 k := (ihL _ _ _ _ _ _ hL k).2
                    have hpL : PkgPreserved stIL st5 := mpL _ _ _ _ _ _ hL
                    have hbc : bump st stIL k + bump stIL st5 k ≤ bump st st5 k :=
                      bump_chain hpI hpL k
                    rw [count_append_one, hpk] at hd2
                    have hb := hc2 k
                    constructor
                    · show st5.buildLog.count k ≤ st.buildLog.count k + bump st st5 k +
                        (if k = pkg.pkg.importPath then 1 else 0)
                      omega
                    · show st5.translateLog.count k ≤ st.translateLog.count k +
                        bump st st5 k + (if k = pkg.pkg.importPath then 1 else 0)
                      omega
                  case _ l2 js2 st5 hL =>
                    simp only [finishBuild] at h
                    split at h
                    all_goals
                      subst h
                      intro k
                      have ha := hc1 k
                      rw [count_append_one] at ha
                      have hd1 : st5.buildLog.count k ≤ stIL.buildLog.count k +
                          bump stIL st5 k := (ihL _ _ _ _ _ _ hL k).1
                      have hd2 : st5.translateLog.count k ≤
                          (stIL.translateLog ++ [pkgIL.pkg.importPath]).count k +
                          bump stIL st5 k := (ihL _ _ _ _ _ _ hL k).2
                      have hpL : PkgPreserved stIL st5 := mpL _ _ _ _ _ _ hL
                      have hbc : bump st stIL k + bump stIL st5 k ≤ bump st st5 k :=
                        bump_chain hpI hpL k
                      rw [count_append_one, hpk] at hd2
                      have hb := hc2 k
                      constructor
                      · show st5.buildLog.count k ≤ st.buildLog.count k + bump st st5 k +
                          (if k = pkg.pkg.importPath then 1 else 0)
                        omega
                      · show st5.translateLog.count k ≤ st.translateLog.count k +
                          bump st st5 k + (if k = pkg.pkg.importPath then 1 else 0)
                        omega
                case _ hCmd =>
                  simp only [finishBuild] at h
                  split at h
                  all_goals
                    subst h
                    intro k
                    have ha := hc1 k
                    rw [count_append_one] at ha
                    have hb := hc2 k
                    constructor
                    · show stIL.buildLog.count k ≤ st.buildLog.count k + bump st stIL k +
                        (if k = pkg.pkg.importPath then 1 else 0)
                      omega
                    · show (stIL.translateLog ++ [pkgIL.pkg.importPath]).count k ≤
                        st.translateLog.count k + bump st stIL k +
                        (if k = pkg.pkg.importPath then 1 else 0)
                      rw [count_append_one, hpk]
                      omega

theorem stageC : getPackage 7 chainW "c" "src/a" false s4Chain = (none, cD, sAfterC) := by
  decide

theorem stageB : getPackage 8 chainW "b" "src/a" false { sAfterC with emitLog := ["c"] } =
    (none, bD, sAfterB) := by decide

set_option maxHeartbeats 1000000 in
theorem bundleStage : loadImports 9 chainW "src/a" ["b"] [] (strBytes "PRELUDE" ++ [10]) s4Chain =
    (none, ["c", "b"], jsAfterBundle, { sAfterB with emitLog := ["c", "b"] }) := by
  simp only [loadImports, stageC, stageB]
  decide

theorem buildPackage_cmd_eq (fuel : Nat) (w : World) (pkg0 : GopherPackage) (wtd : Bool)
    (st0 : St) (pkg2 : GopherPackage) (st2 : St) (acc : Nat) (packageCode jsCode : Bytes)
    (loaded : List String) (st5 : St)
    (hns : ¬ pkg0.pkg.importPath = "unsafe")
    (himp : importLoop fuel w pkg0.pkg.imports { pkg0 with srcLastModified := w.selfMTime }
        { st0 with buildLog := st0.buildLog ++ [pkg0.pkg.importPath] } = (none, pkg2, st2))
    (hgo : goFilesScan st2.fs pkg2.pkg.dir pkg2.pkg.goFiles pkg2.srcLastModified = (none, acc))
    (hch : cacheHitContent st2.fs pkg2.pkg.pkgObj acc wtd = none)
    (htr : w.translate pkg2.pkg.importPath = some packageCode)
    (hcmd : isCommand pkg2.pkg = true)
    (hload : loadImports fuel w pkg2.pkg.dir (w.typeImports pkg2.pkg.importPath) []
        (w.preludeSrc ++ [10])
        { st2 with
          typesPackages := pkg2.pkg.importPath :: st2.typesPackages,
          translateLog := st2.translateLog ++ [pkg2.pkg.importPath] } =
          (none, loaded, jsCode, st5)) :
    buildPackage (fuel + 1) w pkg0 wtd st0 =
      finishBuild w { pkg2 with srcLastModified := acc } wtd
        (jsCode ++ packageCode ++ strBytes "main();") st5 := by
  simp only [buildPackage]
  rw [if_neg hns, himp]
  simp only []
  rw [hgo]
  simp only []
  rw [hch]
  simp only []
  rw [htr]
  simp only []
  rw [hcmd]
  simp only [if_true]
  rw [hload]

theorem chainCompose :
    chainRun = finishBuild chainW aPkg3 true chainFinalJs { sAfterB with emitLog := ["c", "b"] } := by
  refine buildPackage_cmd_eq 9 chainW aPkgChain true (stInit chainFS 100) aPkg3
    { fs := chainFS, packages := [], typesPackages := [], now := 100,
      buildLog := ["a"], translateLog := [], emitLog := [] }
    10 (strBytes "ACODE\n") jsAfterBundle ["c", "b"] { sAfterB with emitLog := ["c", "b"] }
    ?_ ?_ ?_ ?_ ?_ ?_ ?_
  · decide
  · decide
  · decide
  · decide
  · decide
  · decide
  · exact bundleStage

set_option maxRecDepth 100000 in
theorem chainRunEq :
    chainRun = (none,
      { pkg := aPkgChain.pkg, srcLastModified := 10, javaScriptCode := chainFinalJs },
      chainFinalSt) := by
  rw [chainCompose]
  decide

/-- The chain test world's resolution is well formed: every resolvable
package is a library registered under its own import path. -/
theorem chainW_libResolve : LibResolve chainW := by
  intro q bp h
  have hr : chainResolve q = some bp := h
  unfold chainResolve at hr
  split at hr
  · cases hr
    exact ⟨rfl, rfl⟩
  · cases hr
    exact ⟨rfl, rfl⟩
  · cases hr

/-- The failure-memoization test world's resolution is well formed. -/
theorem c9W_libResolve : LibResolve c9W := by
  intro q bp h
  have hr : c9Resolve q = some bp := h
  unfold c9Resolve at hr
  split at hr
  · cases hr
    exact ⟨rfl, rfl⟩
  · cases hr

/-- C2: after a successful non-unsafe build, every import of the package
sits in the cache with a freshness timestamp no greater than the built
package's; consequently — as the concrete two-run scenario shows — bumping
an import's source modification time past the importer's artifact makes the
importer's rebuild invoke the Translation Collaborator again, while an
unchanged importer is served from its artifact. -/
theorem C2_freshness_monotone :
    (∀ fuel w pkg wtd st pkg' st', buildPackage fuel w pkg wtd st = (none, pkg', st') →
      pkg.pkg.importPath ≠ "unsafe" →
      ∀ i ∈ pkg.pkg.imports, ∃ q, lookupA st'.packages i = some q ∧
        q.srcLastModified ≤ pkg'.srcLastModified) ∧
    ((c2Run2bump.2.2).translateLog.count "a" = 1 ∧
      (c2Run2noBump.2.2).translateLog.count "a" = 0) := by
  exact ⟨fun fuel w pkg wtd st pkg' st' h hnu =>
    buildPackage_imports_fresh w fuel pkg wtd st pkg' st' h hnu, by decide⟩

/-- C2 witness: the invariant applied to the concrete first run — the import
b is cached with a timestamp bounded by the built a's. -/
theorem C2_freshness_monotone_witness :
    ∃ q, lookupA (c2Run1.2.2).packages "b" = some q ∧
      q.srcLastModified ≤ (c2Run1.2.1).srcLastModified :=
  C2_freshness_monotone.1 10 c2W aPkgC2 true (stInit c2FS 100) c2Run1.2.1 c2Run1.2.2
    (by decide) (by decide) "b" (by decide)

/-- C8: a failing build leaves the failing package's artifact path
untouched on the filesystem (given that no resolvable package shares that
artifact path): the artifact file is only written, in one piece, after the
whole payload has been assembled successfully in memory. -/
theorem C8_no_partial_write :
    ∀ fuel w pkg wtd st e pkg' st', buildPackage fuel w pkg wtd st = (some e, pkg', st') →
    (∀ q bp, w.resolve q = some bp → bp.pkgObj ≠ pkg.pkg.pkgObj) →
    lookupA st'.fs pkg.pkg.pkgObj = lookupA st.fs pkg.pkg.pkgObj := by
  intro fuel w pkg wtd st e pkg' st' h hsep
  by_contra hne
  rcases (masterFs w fuel).2.2.2 pkg wtd st _ h pkg.pkg.pkgObj hne with
    ⟨q, bp, hres, hobj⟩ | ⟨-, hnone⟩
  · exact hsep q bp hres hobj
  · exact Option.noConfusion hnone

/-- C8 witness: the concrete failing build (translation fails for z) leaves
z's artifact path exactly as it was. -/
theorem C8_no_partial_write_witness :
    lookupA (c8Run.2.2).fs "pkg/z.js" = lookupA (stInit c8FS 100).fs "pkg/z.js" :=
  C8_no_partial_write 3 c8W zPkgC8 true (stInit c8FS 100) (Err.translateFailed "z")
    c8Run.2.1 c8Run.2.2 (by decide) (fun q bp hres => Option.noConfusion hres)

set_option maxRecDepth 100000 in
/-- C5: a successful bundle-assembly pass emits each identity at most once
(a duplicate-free batch), never a pseudo-identity (unsafe, reflect, go/doc)
and never an already-loaded one; and in the concrete chain a imports b
imports c, the assembled script is exactly the prelude, then c's
registration block, then b's, then a's own code, then the entry-point
invocation. -/
theorem C5_bundle_order :
    (∀ w, LibResolve w → ∀ fuel dir work loaded js st loaded' js' st',
      loadImports fuel w dir work loaded js st = (none, loaded', js', st') →
      ∃ L, st'.emitLog = st.emitLog ++ L ∧ L.Nodup ∧
        (∀ x ∈ L, x ∈ loaded' ∧ x ∉ loaded ∧
          ¬(x = "unsafe" ∨ x = "reflect" ∨ x = "go/doc")) ∧
        (∀ x ∈ loaded, x ∈ loaded')) ∧
    (chainRun.1 = none ∧ (chainRun.2.2).emitLog = ["c", "b"] ∧
      (chainRun.2.1).javaScriptCode = strBytes
        ("PRELUDE\nGo$packages[\"c\"] = (function() \x7bCCODE\n\treturn \x7b Qux: Qux \x7d;\n\x7d)();\n"
          ++ "Go$packages[\"b\"] = (function() \x7bBCODE\n\treturn \x7b Foo: Foo, Bar: Bar \x7d;\n\x7d)();\n"
          ++ "ACODE\nmain();")) := by
  refine ⟨fun w hwf => loadImports_emits w hwf, ?_⟩
  rw [chainRunEq]
  decide

/-- C5 witness: the emission lemma applied to a concrete (empty) assembly
pass over the chain world. -/
theorem C5_bundle_order_witness :
    ∃ L, (stInit [] 0).emitLog = (stInit [] 0).emitLog ++ L ∧ L.Nodup ∧
      (∀ x ∈ L, x ∈ ([] : List String) ∧ x ∉ ([] : List String) ∧
        ¬(x = "unsafe" ∨ x = "reflect" ∨ x = "go/doc")) ∧
      (∀ x ∈ ([] : List String), x ∈ ([] : List String)) :=
  C5_bundle_order.1 chainW chainW_libResolve 1 "" [] [] [] (stInit [] 0) [] []
    (stInit [] 0) rfl

set_option maxRecDepth 100000 in
/-- C6: the export-bridging list contains exactly the bridgings of the
exported names of the package's type interface; in the concrete chain run,
the bundle's registration block for b returns exactly Foo and Bar while the
non-exported baz appears nowhere in the bundle. -/
theorem C6_export_bridging :
    (∀ names s, s ∈ exportsList names ↔
      ∃ n, n ∈ names ∧ isExported n = true ∧ s = n ++ ": " ++ n) ∧
    (strBytes "\treturn \x7b Foo: Foo, Bar: Bar \x7d;\n" <:+: (chainRun.2.1).javaScriptCode ∧
      ¬(strBytes "baz" <:+: (chainRun.2.1).javaScriptCode)) := by
  refine ⟨?_, ?_⟩
  · intro names s
    constructor
    · intro hs
      rcases List.mem_map.mp hs with ⟨n, hn, rfl⟩
      rcases List.mem_filter.mp hn with ⟨hmem, hexp⟩
      exact ⟨n, hmem, hexp, rfl⟩
    · rintro ⟨n, hmem, hexp, rfl⟩
      exact List.mem_map.mpr ⟨n, List.mem_filter.mpr ⟨hmem, hexp⟩, rfl⟩
  · rw [chainRunEq]
    decide

/-- C6 witness: the bridging characterization at a concrete name list. -/
theorem C6_export_bridging_witness :
    "Foo: Foo" ∈ exportsList ["Foo", "baz"] :=
  (C6_export_bridging.1 ["Foo", "baz"] "Foo: Foo").mpr ⟨"Foo", by decide, by decide, rfl⟩

theorem dStageB : getPackage 8 diamondW "b" "src/a" true dS0 = (none, bD2, dS1) := by decide

theorem dStageC : getPackage 7 diamondW "c" "src/a" true dS1 = (none, cD2, dS2) := by decide

set_option maxRecDepth 100000 in
theorem dImpLoop :
    importLoop 9 diamondW ["b", "c"] { aPkgDiamond with srcLastModified := 10 }
      dS0 = (none, { aPkgDiamond with srcLastModified := 10 }, dS2) := by decide

set_option maxRecDepth 100000 in
set_option maxHeartbeats 1000000 in
theorem dBundleStage :
    loadImports 9 diamondW "src/a" ["b", "c"] [] (strBytes "PRELUDE" ++ [10]) dS4 =
      (none, ["c", "d", "b"], dBundleJs, dS9) := by decide

theorem diamondCompose :
    diamondRun = finishBuild diamondW { aPkgDiamond with srcLastModified := 10 } true
      dFinalJs dS9 := by
  refine buildPackage_cmd_eq 9 diamondW aPkgDiamond true (stInit diamondFS 100)
    { aPkgDiamond with srcLastModified := 10 } dS2 10 (strBytes "ACODE\n") dBundleJs
    ["c", "d", "b"] dS9 ?_ ?_ ?_ ?_ ?_ ?_ ?_
  · decide
  · exact dImpLoop
  · decide
  · decide
  · decide
  · decide
  · exact dBundleStage

set_option maxRecDepth 100000 in
theorem diamondRunEq :
    diamondRun = (none,
      { pkg := aPkgDiamond.pkg, srcLastModified := 10, javaScriptCode := dFinalJs },
      dFinalSt) := by
  rw [diamondCompose]
  decide

/-- C3: a request for an identity already in the package cache returns the
memoized descriptor with no error and no state change; concretely, in the
diamond import graph — the executable a imports b and c, whose type
interfaces both import d — the whole run succeeds, d is entered by
buildPackage exactly once and the Translation Collaborator runs on d
exactly once. -/
theorem C3_build_once :
    (∀ fuel w p d b st q, lookupA st.packages p = some q →
      getPackage (fuel + 1) w p d b st = (none, q, st)) ∧
    (diamondRun.1 = none ∧ (diamondRun.2.2).buildLog.count "d" = 1 ∧
      (diamondRun.2.2).translateLog.count "d" = 1) := by
  refine ⟨?_, ?_⟩
  · intro fuel w p d b st q hq
    simp only [getPackage, hq]
  · rw [diamondRunEq]
    decide

/-- C3 witness: after the diamond run, requesting d again returns the
memoized descriptor and leaves the state untouched. -/
theorem C3_build_once_witness :
    getPackage 5 diamondW "d" "" true diamondRun.2.2 =
      (none, ⟨mkPkg "d" "d" [] "src/d" ["d.go"] "pkg/d.js", 10, strBytes "DCODE\n"⟩,
        diamondRun.2.2) :=
  C3_build_once.1 4 diamondW "d" "" true diamondRun.2.2
    ⟨mkPkg "d" "d" [] "src/d" ["d.go"] "pkg/d.js", 10, strBytes "DCODE\n"⟩
    (by rw [diamondRunEq]; decide)

/-- C9: the descriptor is inserted into the package cache before building,
so after a failed build of a resolvable non-unsafe identity that was not
yet registered, the cache holds an incomplete descriptor — empty payload,
no registered type interface — and every later request for the same
identity returns it with no error: the original failure is never re-raised
to later callers in the same run. -/
theorem C9_failure_memoized (fuel : Nat) (w : World) (p d : String) (wtd : Bool) (st : St)
    (e : Err) (rp : GopherPackage) (st' : St) (bp : BuildPkg)
    (hwf : LibResolve w)
    (h : getPackage (fuel + 1) w p d wtd st = (some e, rp, st'))
    (hres : w.resolve p = some bp)
    (hnu : p ≠ "unsafe")
    (hnot : p ∉ st.typesPackages) :
    ∃ desc, lookupA st'.packages p = some desc ∧ desc.javaScriptCode = [] ∧
      p ∉ st'.typesPackages ∧
      ∀ fuel2 d2 wtd2, getPackage (fuel2 + 1) w p d2 wtd2 st' = (none, desc, st') := by
  simp only [getPackage] at h
  split at h
  · exact Option.noConfusion (congrArg Prod.fst h)
  · rename_i hmiss
    split at h
    · rename_i hres2
      rw [hres] at hres2
      exact Option.noConfusion hres2
    · rename_i otherPkg hres2
      split at h
      · rename_i e1 pkg1 st2 hB
        simp only [Prod.mk.injEq] at h
        obtain ⟨-, -, hst⟩ := h
        subst hst
        refine ⟨pkg1, ?_, ?_, ?_, ?_⟩
        · simp [lookupA_cons]
        · exact buildPackage_js_on_error w fuel _ true _ e1 pkg1 st2 hB
        · intro hmem
          have hty := ((masterTypes w hwf fuel).2.2.2 _ true _ _ hB).1 p hmem
          rcases hty with ha | hu | ⟨hn1, -⟩ | ⟨-, hcc⟩
          · exact hnot ha
          · exact hnu hu
          · rw [lookupA_cons] at hn1
            simp at hn1
          · rcases hcc with hnone | hcmd
            · exact Option.noConfusion hnone
            · have hlib := (hwf p otherPkg hres2).2
              rw [hlib] at hcmd
              exact Bool.noConfusion hcmd
        · intro fuel2 d2 wtd2
          simp only [getPackage, lookupA_cons]
          simp
      · rename_i pkg1 st2 hB
        exact Option.noConfusion (congrArg Prod.fst h)

/-- C9 witness: in the concrete world where z resolves but its translation
fails, the failed run caches an empty-payload descriptor for z, registers
no type interface, and a later request returns it with no error. -/
theorem C9_failure_memoized_witness :
    ∃ desc, lookupA (c9Run.2.2).packages "z" = some desc ∧ desc.javaScriptCode = [] ∧
      "z" ∉ (c9Run.2.2).typesPackages ∧
      ∀ fuel2 d2 wtd2, getPackage (fuel2 + 1) c9W "z" d2 wtd2 c9Run.2.2 =
        (none, desc, c9Run.2.2) :=
  C9_failure_memoized 2 c9W "z" "" true (stInit c9FS 100) (Err.translateFailed "z")
    dummyPkg c9Run.2.2 (mkPkg "z" "z" [] "src/z" ["z.go"] "pkg/z.js") c9W_libResolve
    (by decide) (by decide) (by decide) (by decide)
